import Mathlib

/-!
# aws-kv: a shallow embedding of `aws-kv.go`

The program reads `accessKey:secretKey` entries from the `-k` flag and the
lines of the `-f` file, splits them into chunks, starts one goroutine per
chunk (`processCredentials`), and tallies the records the goroutines pushed
onto the result channel.

Modelling decisions.

* Go `int` is the 64-bit two's-complement integer of the amd64/arm64 builds:
  an `Int` kept in range by `wrapInt`.  Division truncates toward zero and
  panics on a zero divisor.
* A run of `main` ends in one of four ways (`Outcome`): it returns, it calls
  `os.Exit`, it panics, or the loop is still running when the fuel of the
  model is used up.
* The AWS SDK is a stub (`Remote`): three calls, each reading and updating an
  oracle state, so that every sequence of call outcomes can be represented.
  Every SDK call is written to a log.
* Goroutines are run one after the other in the order they were started; the
  result channel is the list of pushed records.  The channel has capacity
  `len(credentials)`, so no goroutine ever blocks on a send.
* Standard output is the sequence of `Printf` writes (`Report.out`); `render`
  joins them into the text and `textLines` cuts the text at its line breaks.
-/

namespace AwsKv

/-! ## Go integers -/

/-- Two's-complement wrap-around of a mathematical integer into Go `int`. -/
def wrapInt (x : Int) : Int := (x + 2 ^ 63) % 2 ^ 64 - 2 ^ 63

/-- Go `a + b` on `int`. -/
def goAdd (a b : Int) : Int := wrapInt (a + b)

/-- Go `a - b` on `int`. -/
def goSub (a b : Int) : Int := wrapInt (a - b)

/-- Go `a / b` on `int`: `none` is the run-time panic "integer divide by
zero"; otherwise the quotient truncated toward zero (wrapped, for
`-2^63 / -1`). -/
def goDiv (a b : Int) : Option Int :=
  if b = 0 then none else some (wrapInt (Int.tdiv a b))

/-! ## Outcomes of a run -/

/-- How a piece of Go code ends. -/
inductive Outcome (α : Type) where
  /-- normal completion with a value -/
  | ok (a : α)
  /-- `os.Exit(code)` after printing `out` -/
  | exit (code : Nat) (out : List String)
  /-- run-time panic (the process ends with status 2) -/
  | panic (msg : String)
  /-- the loop is still running when the fuel is used up -/
  | outOfFuel
  deriving Repr, DecidableEq

/-! ## Slices -/

/-- The slice expression `s[i:j]` with the bounds check `0 ≤ i ≤ j ≤ len(s)`:
`none` is the panic "slice bounds out of range".  (Go checks `j` against
`cap(s) ≥ len(s)`; the one call site clamps `j` to `len(s)` beforehand.) -/
def sliceExpr {α : Type} (s : List α) (i j : Int) : Option (List α) :=
  if 0 ≤ i ∧ i ≤ j ∧ j ≤ (s.length : Int) then
    some ((s.drop i.toNat).take (j.toNat - i.toNat))
  else none

/-! ## The partition loop of `main` (lines 130-143) -/

/-- Line 131: `chunkSize := (len(credentials) + *threadsFlag - 1) / *threadsFlag`. -/
def chunkSize (len threads : Int) : Option Int :=
  goDiv (goSub (goAdd len threads) 1) threads

/-- Lines 135-143: `for i := 0; i < len(credentials); i += chunkSize`.
`acc` holds the chunks already handed to `go processCredentials(...)`, in
start order. -/
def partitionLoop (credentials : List String) (chunkSize : Int) :
    Nat → Int → List (List String) → Outcome (List (List String))
  | 0, _, _ => .outOfFuel
  | fuel + 1, i, acc =>
    if i < (credentials.length : Int) then
      let end0 := goAdd i chunkSize
      let end1 := if end0 > (credentials.length : Int) then (credentials.length : Int) else end0
      match sliceExpr credentials i end1 with
      | none => .panic "slice bounds out of range"
      | some chunk => partitionLoop credentials chunkSize fuel (goAdd i chunkSize) (acc ++ [chunk])
    else .ok acc

/-- Lines 131-143: the chunks handed to the goroutines, in start order. -/
def partition (fuel : Nat) (credentials : List String) (threads : Int) :
    Outcome (List (List String)) :=
  match chunkSize (credentials.length : Int) threads with
  | none => .panic "integer divide by zero"
  | some c => partitionLoop credentials c fuel 0 []

/-! ## Chunks, as the specification describes them -/

/-- Ceiling division on naturals, `⌈a / b⌉`, written as the source writes it. -/
def ceilDiv (a b : Nat) : Nat := (a + b - 1) / b

/-- The `j`-th chunk of size `c`: `credentials[j*c : min((j+1)*c, len)]`. -/
def chunkAt (credentials : List String) (c j : Nat) : List String :=
  (credentials.drop (j * c)).take c

/-- The chunks of size `c`, in order. -/
def chunksOf (credentials : List String) (c : Nat) : List (List String) :=
  (List.range (ceilDiv credentials.length c)).map (chunkAt credentials c)

/-! ## Strings -/

/-- Splitting a character sequence at every occurrence of `sep`: the pieces
between the separators, in order (one more piece than separators). -/
def splitOnChar (sep : Char) : List Char → List (List Char)
  | [] => [[]]
  | ch :: rest =>
    if ch = sep then [] :: splitOnChar sep rest
    else
      match splitOnChar sep rest with
      | [] => [[ch]]
      | p :: ps => (ch :: p) :: ps

/-- Go `strings.Split(s, sep)` for a one-character separator (the only call,
line 82, passes `":"`).  An entry is a sequence of characters; the colon is a
single byte that occurs in no multi-byte UTF-8 sequence, so splitting
characters and splitting bytes agree. -/
def strings.Split (s : String) (sep : Char) : List String :=
  (splitOnChar sep s.data).map String.mk

/-- Number of colons in an entry. -/
def colonCount (cred : String) : Nat := cred.data.count ':'

/-- The text of an entry before its first colon. -/
def beforeColon (cred : String) : String := String.mk (cred.data.takeWhile (fun ch => ch != ':'))

/-- The text of an entry after its first colon. -/
def afterColon (cred : String) : String :=
  String.mk ((cred.data.dropWhile (fun ch => ch != ':')).drop 1)

/-- Lines 18-22. -/
def colorGreen : String := "\x1b[32m"

/-- Lines 18-22. -/
def colorRed : String := "\x1b[31m"

/-- Lines 18-22. -/
def colorReset : String := "\x1b[0m"

/-! ## Records and the stubbed SDK -/

/-- Lines 24-28. -/
structure CredentialInfo where
  AccessKey : String
  Valid : Bool
  Details : String
  deriving Repr, DecidableEq

/-- The value `session.NewSession` returns: it carries the static credentials
it was configured with. -/
structure Session where
  accessKey : String
  secretKey : String
  deriving Repr, DecidableEq

/-- The fields of `sts.GetCallerIdentityOutput` that line 56-60 read. -/
structure GetCallerIdentityOutput where
  UserId : String
  Account : String
  Arn : String
  deriving Repr, DecidableEq

/-- The payload of `iam.GetAccountAuthorizationDetails`, kept as the text
that the verb `%v` prints for it. -/
structure GetAccountAuthorizationDetailsOutput where
  text : String
  deriving Repr, DecidableEq

/-- One call into the AWS SDK. -/
inductive SdkCall where
  | NewSession (accessKey secretKey : String)
  | GetCallerIdentity (sess : Session)
  | GetAccountAuthorizationDetails (sess : Session)
  deriving Repr, DecidableEq

/-- The stubbed SDK.  `none` is a non-nil `err`.  Each call may read and
change the oracle state `σ`, so outcomes may differ from call to call. -/
structure Remote (σ : Type) where
  NewSession : String → String → σ → Option Session × σ
  GetCallerIdentity : Session → σ → Option GetCallerIdentityOutput × σ
  GetAccountAuthorizationDetails : Session → σ → Option GetAccountAuthorizationDetailsOutput × σ

/-- The state threaded through the workers: the oracle state of the stub and
the log of SDK calls made so far, oldest first. -/
structure World (σ : Type) where
  oracle : σ
  log : List SdkCall

/-- The three-field summary of lines 56-61. -/
def identitySummary (id : GetCallerIdentityOutput) : String :=
  "Caller Identity: " ++ id.UserId ++ ", Account: " ++ id.Account ++ ", ARN: " ++ id.Arn

/-- Lines 30-76. -/
def validateAndFetchDetails {σ : Type} (R : Remote σ) (accessKey secretKey : String)
    (w : World σ) : CredentialInfo × World σ :=
  let (sess?, o1) := R.NewSession accessKey secretKey w.oracle
  let log1 := w.log ++ [SdkCall.NewSession accessKey secretKey]
  match sess? with
  | none => ({ AccessKey := accessKey, Valid := false, Details := "" }, ⟨o1, log1⟩)
  | some sess =>
    let (callerIdentity?, o2) := R.GetCallerIdentity sess o1
    let log2 := log1 ++ [SdkCall.GetCallerIdentity sess]
    match callerIdentity? with
    | none => ({ AccessKey := accessKey, Valid := false, Details := "" }, ⟨o2, log2⟩)
    | some callerIdentity =>
      let (authDetails?, o3) := R.GetAccountAuthorizationDetails sess o2
      let log3 := log2 ++ [SdkCall.GetAccountAuthorizationDetails sess]
      match authDetails? with
      | none =>
        ({ AccessKey := accessKey, Valid := true,
           Details := identitySummary callerIdentity }, ⟨o3, log3⟩)
      | some authDetails =>
        ({ AccessKey := accessKey, Valid := true,
           Details := identitySummary callerIdentity ++ "\nIAM Details: " ++ authDetails.text },
         ⟨o3, log3⟩)

/-- The body of the loop of lines 81-93 for one entry: the record pushed on
the channel and the state afterwards. -/
def processEntry {σ : Type} (R : Remote σ) (cred : String) (w : World σ) :
    CredentialInfo × World σ :=
  match strings.Split cred ':' with
  | [accessKey, secretKey] => validateAndFetchDetails R accessKey secretKey w
  | _ => ({ AccessKey := cred, Valid := false, Details := "" }, w)

/-- Lines 78-94: the records one goroutine pushes on the result channel, in
push order, and the state afterwards. -/
def processCredentials {σ : Type} (R : Remote σ) :
    List String → World σ → List CredentialInfo × World σ
  | [], w => ([], w)
  | cred :: rest, w =>
    let (r, w1) := processEntry R cred w
    let (rs, w2) := processCredentials R rest w1
    (r :: rs, w2)

/-- The goroutines of lines 135-143, run in start order: the contents of the
result channel when `wg.Wait()` returns, and the state afterwards. -/
def runWorkers {σ : Type} (R : Remote σ) :
    List (List String) → World σ → List CredentialInfo × World σ
  | [], w => ([], w)
  | chunk :: rest, w =>
    let (rs, w1) := processCredentials R chunk w
    let (rs2, w2) := runWorkers R rest w1
    (rs ++ rs2, w2)

/-! ## `main` -/

/-- The command-line flags (lines 97-100). -/
structure Flags where
  k : String
  f : String
  t : Int
  d : Bool

/-- What opening and scanning the `-f` file yields. -/
inductive FileRead where
  /-- `os.Open` failed with this error text -/
  | openError (err : String)
  /-- the scanner delivered these lines, then stopped with `scanner.Err()` -/
  | scanned (lines : List String) (err : Option String)

/-- What `main` has computed when it returns. -/
structure Report where
  validCount : Nat
  invalidCount : Nat
  out : List String
  deriving Repr, DecidableEq

/-- Line 157. -/
def validBlock (result : CredentialInfo) : String :=
  colorGreen ++ "Valid:" ++ colorReset ++ " " ++ result.AccessKey ++ "\nDetails:\n"
    ++ result.Details ++ "\n\n"

/-- Line 161. -/
def invalidLine (result : CredentialInfo) : String :=
  colorRed ++ "Invalid:" ++ colorReset ++ " " ++ result.AccessKey ++ "\n"

/-- Line 167. -/
def validCountLine (validCount : Nat) : String :=
  colorGreen ++ "Number of valid credentials:" ++ colorReset ++ " " ++ toString validCount ++ "\n"

/-- Line 169. -/
def invalidCountLine (invalidCount : Nat) : String :=
  colorRed ++ "Number of invalid credentials:" ++ colorReset ++ " " ++ toString invalidCount
    ++ "\n"

/-- The body of the loop of lines 154-164.  `out` is the sequence of `Printf`
writes. -/
def aggregateStep (debugFlag : Bool) (acc : Report) (result : CredentialInfo) : Report :=
  if result.Valid then
    { acc with validCount := acc.validCount + 1, out := acc.out ++ [validBlock result] }
  else
    { acc with
      invalidCount := acc.invalidCount + 1,
      out := if debugFlag then acc.out ++ [invalidLine result] else acc.out }

/-- Lines 149-170: the aggregation loop followed by the summary. -/
def aggregate (debugFlag : Bool) (results : List CredentialInfo) : Report :=
  let acc := results.foldl (aggregateStep debugFlag) { validCount := 0, invalidCount := 0, out := [] }
  let out1 := acc.out ++ [validCountLine acc.validCount]
  { acc with out := if debugFlag then out1 ++ [invalidCountLine acc.invalidCount] else out1 }

/-- Lines 103-128: the entries collected from `-k` and `-f`, in that order;
a file error ends the run with `os.Exit(1)`. -/
def collect (flags : Flags) (fs : String → FileRead) : Outcome (List String) :=
  let credentials := if flags.k ≠ "" then [flags.k] else []
  if flags.f ≠ "" then
    match fs flags.f with
    | .openError err => .exit 1 ["Error opening file: " ++ err ++ "\n"]
    | .scanned lines none => .ok (credentials ++ lines)
    | .scanned _ (some err) => .exit 1 ["Error reading file: " ++ err ++ "\n"]
  else .ok credentials

/-- Lines 96-171. -/
def main {σ : Type} (fuel : Nat) (flags : Flags) (fs : String → FileRead) (R : Remote σ)
    (w : World σ) : Outcome Report :=
  match collect flags fs with
  | .ok credentials =>
    match partition fuel credentials flags.t with
    | .ok chunks => .ok (aggregate flags.d (runWorkers R chunks w).1)
    | .exit code out => .exit code out
    | .panic msg => .panic msg
    | .outOfFuel => .outOfFuel
  | .exit code out => .exit code out
  | .panic msg => .panic msg
  | .outOfFuel => .outOfFuel

/-- The exit status of the process; `none` when it never ends. -/
def exitStatus {α : Type} : Outcome α → Option Nat
  | .ok _ => some 0
  | .exit code _ => some code
  | .panic _ => some 2
  | .outOfFuel => none

/-! ## Concrete stubs used to evaluate the model -/

/-- A stub whose session and identity calls succeed with the identity
`(u1, 111, arn:aws:iam::111:user/u1)` and whose detail call fails. -/
def stubDetailFails : Remote Unit where
  NewSession := fun accessKey secretKey o => (some ⟨accessKey, secretKey⟩, o)
  GetCallerIdentity := fun _ o => (some ⟨"u1", "111", "arn:aws:iam::111:user/u1"⟩, o)
  GetAccountAuthorizationDetails := fun _ o => (none, o)

/-- A stub whose identity call fails. -/
def stubIdentityFails : Remote Unit where
  NewSession := fun accessKey secretKey o => (some ⟨accessKey, secretKey⟩, o)
  GetCallerIdentity := fun _ o => (none, o)
  GetAccountAuthorizationDetails := fun _ o => (none, o)

/-- The initial state of a run against a stateless stub. -/
def world0 : World Unit := ⟨(), []⟩

/-- A file system without files. -/
def noFiles : String → FileRead := fun _ => .openError "no such file or directory"

/-- A file system whose every file holds the single line `c:d`. -/
def oneLineFile : String → FileRead := fun _ => .scanned ["c:d"] none

/-- Five well-formed entries. -/
def fiveEntries : List String := ["k1:s1", "k2:s2", "k3:s3", "k4:s4", "k5:s5"]

/-- The entries `main` works on: the `-k` value, when given, followed by the
lines of the `-f` file. -/
def inputEntries (k : String) (lines : List String) : List String :=
  (if k ≠ "" then [k] else []) ++ lines

/-- A stub whose three calls all succeed. -/
def stubAllSucceed : Remote Unit where
  NewSession := fun accessKey secretKey o => (some ⟨accessKey, secretKey⟩, o)
  GetCallerIdentity := fun _ o => (some ⟨"u1", "111", "arn:aws:iam::111:user/u1"⟩, o)
  GetAccountAuthorizationDetails := fun _ o => (some ⟨"UserDetailList: []"⟩, o)

/-- The SDK's static credentials provider: a session built by
`credentials.NewStaticCredentials` with an empty access key or an empty secret
cannot sign a request (`EmptyStaticCreds`), so the identity call made through
it fails before any request is sent. -/
def Remote.rejectsEmptyStaticCreds {σ : Type} (R : Remote σ) : Prop :=
  ∀ (accessKey secretKey : String) (o o2 : σ) (sess : Session),
    (accessKey = "" ∨ secretKey = "") →
    (R.NewSession accessKey secretKey o).1 = some sess →
    (R.GetCallerIdentity sess o2).1 = none

/-- A stub that behaves like the SDK on empty static credentials: the
identity call fails when the access key or the secret is empty and succeeds
otherwise; the detail call fails. -/
def stubStaticCreds : Remote Unit where
  NewSession := fun accessKey secretKey o => (some ⟨accessKey, secretKey⟩, o)
  GetCallerIdentity := fun sess o =>
    if sess.accessKey = "" ∨ sess.secretKey = "" then (none, o)
    else (some ⟨"u1", "111", "arn:aws:iam::111:user/u1"⟩, o)
  GetAccountAuthorizationDetails := fun _ o => (none, o)

/-- A malformed entry (two colons) that carries a line break followed by the
"Invalid:" label. -/
def entryWithLabel : String := "x:y\n\x1b[31mInvalid:\x1b[0m z"

/-- Two plain result records: one valid, one invalid. -/
def plainResults : List CredentialInfo :=
  [{ AccessKey := "AKIA1", Valid := true,
     Details := "Caller Identity: u1, Account: 111, ARN: arn:aws:iam::111:user/u1" },
   { AccessKey := "bad-entry", Valid := false, Details := "" }]

/-! ## Classifying the writes and the text lines of the report -/

/-- Go `strings.HasPrefix(s, pre)`. -/
def hasPrefix (s pre : String) : Bool := pre.data.isPrefixOf s.data

/-- The coloured label that opens the format of line 157. -/
def validLabel : String := colorGreen ++ "Valid:" ++ colorReset

/-- The coloured label that opens the format of line 161. -/
def invalidLabel : String := colorRed ++ "Invalid:" ++ colorReset

/-- The coloured label that opens the format of line 167. -/
def validCountLabel : String := colorGreen ++ "Number of valid credentials:" ++ colorReset

/-- The coloured label that opens the format of line 169. -/
def invalidCountLabel : String := colorRed ++ "Number of invalid credentials:" ++ colorReset

/-- A write or text line that is an "Invalid:" line (the format of line 161). -/
def isInvalidLine (s : String) : Bool := hasPrefix s invalidLabel

/-- A write or text line that is the "Number of invalid credentials:" line
(line 169). -/
def isInvalidCountLine (s : String) : Bool := hasPrefix s invalidCountLabel

/-- A write or text line that opens a "Valid:" block (the format of line 157). -/
def isValidBlock (s : String) : Bool := hasPrefix s validLabel

/-- A write or text line that is the "Number of valid credentials:" line
(line 167). -/
def isValidCountLine (s : String) : Bool := hasPrefix s validCountLabel

/-- A text line that begins with one of the four coloured labels. -/
def isLabelLine (s : String) : Bool :=
  isValidBlock s || isInvalidLine s || isValidCountLine s || isInvalidCountLine s

/-- The text on standard output: the `Printf` writes one after the other. -/
def render : List String → String
  | [] => ""
  | w :: ws => w ++ render ws

/-- The lines of a text: the pieces between its line breaks. -/
def textLines (s : String) : List String :=
  (splitOnChar (Char.ofNat 10) s.data).map String.mk

/-- The first line of a text. -/
def firstLine (s : String) : String := (textLines s).headD ""

/-- No line of the text after its first begins with one of the labels. -/
def plainTail (s : String) : Bool := (textLines s).tail.all (fun l => !isLabelLine l)

/-- No line of the text begins with one of the labels. -/
def plainText (s : String) : Bool := (textLines s).all (fun l => !isLabelLine l)

/-- The texts of the record that the aggregation loop prints (the access key
of a valid record or, in debug mode, of an invalid one; the details of a
valid record) do not themselves start a line with one of the labels. -/
def printsPlain (debugFlag : Bool) (r : CredentialInfo) : Bool :=
  if r.Valid then plainTail r.AccessKey && plainText r.Details
  else (!debugFlag || plainTail r.AccessKey)

/-! # Theorems

## Arithmetic of the partition loop -/

theorem wrapInt_id {x : Int} (h0 : -(2 ^ 63) ≤ x) (h1 : x < 2 ^ 63) : wrapInt x = x := by
  unfold wrapInt; omega

theorem ceilDiv_mul_ge (a b : Nat) (hb : 0 < b) : a ≤ ceilDiv a b * b := by
  unfold ceilDiv
  have h := Nat.div_add_mod (a + b - 1) b
  have h2 := Nat.mod_lt (a + b - 1) hb
  have h3 : b * ((a + b - 1) / b) = (a + b - 1) / b * b := Nat.mul_comm _ _
  omega

theorem ceilDiv_mul_le (a b : Nat) : ceilDiv a b * b ≤ a + b - 1 := by
  unfold ceilDiv
  exact Nat.div_mul_le_self _ _

theorem lt_ceilDiv_iff (a c j : Nat) (hc : 0 < c) : j < ceilDiv a c ↔ j * c < a := by
  unfold ceilDiv
  rw [Nat.lt_iff_add_one_le, Nat.le_div_iff_mul_le hc, Nat.add_mul]
  omega

theorem ceilDiv_pos (a b : Nat) (ha : 0 < a) (hb : 0 < b) : 0 < ceilDiv a b := by
  rw [lt_ceilDiv_iff a b 0 hb]; omega

theorem ceilDiv_zero_left (b : Nat) : ceilDiv 0 b = 0 := by
  unfold ceilDiv
  rcases Nat.eq_zero_or_pos b with h | h
  · subst h; simp
  · apply Nat.div_eq_of_lt; omega

theorem ceilDiv_le_self (a b : Nat) (hb : 0 < b) : ceilDiv a b ≤ a := by
  unfold ceilDiv
  rcases Nat.eq_zero_or_pos a with h | h
  · subst h; rw [Nat.zero_add]; exact Nat.le_of_eq (Nat.div_eq_of_lt (by omega))
  · apply Nat.le_of_lt_succ
    rw [Nat.div_lt_iff_lt_mul hb, Nat.succ_mul]
    have : a ≤ a * b := Nat.le_mul_of_pos_right a hb
    omega

/-- With more workers than entries every chunk has one entry. -/
theorem ceilDiv_of_lt (a b : Nat) (ha : 0 < a) (hab : a < b) : ceilDiv a b = 1 := by
  unfold ceilDiv
  apply Nat.div_eq_of_lt_le <;> omega

theorem ceilDiv_one (a : Nat) : ceilDiv a 1 = a := by
  unfold ceilDiv; simp

/-- The number of chunks never exceeds the worker count. -/
theorem ceilDiv_ceilDiv_le (a k : Nat) (hk : 0 < k) : ceilDiv a (ceilDiv a k) ≤ k := by
  rcases Nat.eq_zero_or_pos a with h | h
  · subst h; rw [ceilDiv_zero_left]; exact Nat.zero_le _
  · have hc := ceilDiv_pos a k h hk
    by_contra hlt
    have h1 : k < ceilDiv a (ceilDiv a k) := Nat.lt_of_not_le hlt
    rw [lt_ceilDiv_iff a _ k hc] at h1
    have h2 := ceilDiv_mul_ge a k hk
    rw [Nat.mul_comm] at h2
    omega

/-! ## The partition loop computes `chunksOf` -/

theorem sliceExpr_chunk (credentials : List String) (c j : Nat) (hc : 0 < c)
    (hj : j * c < credentials.length) :
    sliceExpr credentials ((j * c : Nat) : Int)
      (if ((j * c + c : Nat) : Int) > (credentials.length : Int)
        then (credentials.length : Int) else ((j * c + c : Nat) : Int))
      = some (chunkAt credentials c j) := by
  unfold sliceExpr chunkAt
  by_cases h : ((j * c + c : Nat) : Int) > (credentials.length : Int)
  · rw [if_pos h]
    have hle : credentials.length < j * c + c := by omega
    rw [if_pos (by omega)]
    simp only [Int.toNat_ofNat, Option.some.injEq]
    rw [List.take_of_length_le (by rw [List.length_drop]),
      List.take_of_length_le (by rw [List.length_drop]; omega)]
  · rw [if_neg h]
    rw [if_pos (by omega)]
    simp only [Int.toNat_ofNat, Option.some.injEq]
    congr 1
    omega

theorem partitionLoop_ok (credentials : List String) (c : Nat) (hc : 0 < c)
    (hb : ∀ j, j * c < credentials.length → j * c + c < 2 ^ 63) :
    ∀ (fuel j : Nat), j ≤ ceilDiv credentials.length c →
      ceilDiv credentials.length c - j < fuel →
      partitionLoop credentials (c : Int) fuel ((j * c : Nat) : Int)
          ((List.range j).map (chunkAt credentials c))
        = .ok (chunksOf credentials c) := by
  intro fuel
  induction fuel with
  | zero => intro j _ h; omega
  | succ fuel ih =>
    intro j hj hfuel
    rw [partitionLoop]
    by_cases hlt : j * c < credentials.length
    · have hjn : j < ceilDiv credentials.length c := (lt_ceilDiv_iff _ c j hc).2 hlt
      have hbj := hb j hlt
      have hadd : goAdd ((j * c : Nat) : Int) (c : Int) = ((j * c + c : Nat) : Int) := by
        unfold goAdd
        rw [wrapInt_id (by omega) (by omega)]
        push_cast; ring
      rw [if_pos (by exact_mod_cast hlt)]
      simp only [hadd]
      rw [sliceExpr_chunk credentials c j hc hlt]
      simp only []
      have hacc : (List.range j).map (chunkAt credentials c) ++ [chunkAt credentials c j]
          = (List.range (j + 1)).map (chunkAt credentials c) := by
        rw [List.range_succ, List.map_append]; rfl
      rw [hacc]
      have hmul : j * c + c = (j + 1) * c := by rw [Nat.add_mul, Nat.one_mul]
      rw [hmul]
      exact ih (j + 1) hjn (by omega)
    · rw [if_neg (by exact_mod_cast hlt)]
      have hjn : ¬ j < ceilDiv credentials.length c := fun h => hlt ((lt_ceilDiv_iff _ c j hc).1 h)
      have : j = ceilDiv credentials.length c := by omega
      unfold chunksOf
      rw [← this]

/-- No addition of the partition loop overflows when the chunk-size
computation does not. -/
theorem loop_bound (L K : Nat) (hK : 1 ≤ K) (hov : L + K - 1 < 2 ^ 63) :
    ∀ j, j * ceilDiv L K < L → j * ceilDiv L K + ceilDiv L K < 2 ^ 63 := by
  intro j hj
  have h1 := ceilDiv_mul_ge L K hK
  have h2 := ceilDiv_mul_le L K
  have hjK : j + 1 ≤ K := by
    by_contra hcon
    have hKj : K ≤ j := by omega
    have := Nat.mul_le_mul_right (ceilDiv L K) hKj
    rw [Nat.mul_comm K] at this
    omega
  have h3 := Nat.mul_le_mul_right (ceilDiv L K) hjK
  rw [Nat.add_mul, Nat.one_mul, Nat.mul_comm K] at h3
  omega

theorem wrapInt_sub_one (x : Int) : wrapInt (wrapInt x - 1) = wrapInt (x - 1) := by
  unfold wrapInt; omega

theorem chunkSize_eq (L K : Nat) (hK : 1 ≤ K) (hov : L + K - 1 < 2 ^ 63) :
    chunkSize (L : Int) (K : Int) = some ((ceilDiv L K : Nat) : Int) := by
  unfold chunkSize goDiv goSub goAdd
  rw [if_neg (by omega), wrapInt_sub_one]
  rw [wrapInt_id (x := (L : Int) + (K : Int) - 1) (by omega) (by omega)]
  have hcast : (L : Int) + (K : Int) - 1 = ((L + K - 1 : Nat) : Int) := by omega
  rw [hcast, Int.tdiv_eq_ediv (by omega) (by omega)]
  have hdiv : ((L + K - 1 : Nat) : Int) / (K : Int) = (((L + K - 1) / K : Nat) : Int) := by
    norm_cast
  rw [hdiv]
  have hle : (L + K - 1) / K ≤ L + K - 1 := Nat.div_le_self _ _
  have hq : ∀ q : Nat, q ≤ L + K - 1 → wrapInt (q : Int) = (q : Int) :=
    fun q hq => wrapInt_id (by omega) (by omega)
  rw [hq _ hle]
  rfl

/-- The partition loop returns, and returns `chunksOf`, whenever the worker
count is positive and the chunk-size computation does not overflow. -/
theorem partition_ok (credentials : List String) (K : Nat) (hK : 1 ≤ K)
    (hov : credentials.length + K - 1 < 2 ^ 63) (fuel : Nat)
    (hfuel : credentials.length < fuel) :
    partition fuel credentials (K : Int)
      = .ok (chunksOf credentials (ceilDiv credentials.length K)) := by
  unfold partition
  rw [chunkSize_eq credentials.length K hK hov]
  show partitionLoop credentials _ fuel 0 [] = _
  rcases Nat.eq_zero_or_pos credentials.length with h0 | hpos
  · have hnil : credentials = [] := List.length_eq_zero.mp h0
    subst hnil
    cases fuel with
    | zero => exact absurd hfuel (Nat.lt_irrefl _)
    | succ f =>
      rw [partitionLoop, if_neg (by decide)]
      unfold chunksOf
      rw [List.length_nil, ceilDiv_zero_left, ceilDiv_zero_left]
      rfl
  · have hc := ceilDiv_pos credentials.length K hpos hK
    have hn : ceilDiv credentials.length (ceilDiv credentials.length K) ≤ credentials.length :=
      ceilDiv_le_self _ _ hc
    have := partitionLoop_ok credentials (ceilDiv credentials.length K) hc
      (loop_bound credentials.length K hK hov) fuel 0 (Nat.zero_le _) (by omega)
    rw [Nat.zero_mul, List.range_zero, List.map_nil] at this
    exact this

/-! ## `strings.Split` on a colon -/

theorem splitOnChar_ne_nil (sep : Char) (l : List Char) : splitOnChar sep l ≠ [] := by
  cases l with
  | nil => simp [splitOnChar]
  | cons ch rest =>
    unfold splitOnChar
    split
    · simp
    · split <;> simp

theorem splitOnChar_length (sep : Char) (l : List Char) :
    (splitOnChar sep l).length = l.count sep + 1 := by
  induction l with
  | nil => simp [splitOnChar]
  | cons ch rest ih =>
    unfold splitOnChar
    by_cases h : ch = sep
    · subst h; simp [ih]
    · rw [if_neg h]
      have hcount : (ch :: rest).count sep = rest.count sep := by
        rw [List.count_cons]; simp [h]
      rw [hcount, ← ih]
      cases hs : splitOnChar sep rest with
      | nil => exact absurd hs (splitOnChar_ne_nil sep rest)
      | cons p ps => simp

theorem splitOnChar_of_count_zero (sep : Char) (l : List Char) (h : l.count sep = 0) :
    splitOnChar sep l = [l] := by
  induction l with
  | nil => simp [splitOnChar]
  | cons ch rest ih =>
    have hne : ch ≠ sep := by
      intro he; subst he; simp at h
    have hrest : rest.count sep = 0 := by
      rw [List.count_cons] at h; omega
    unfold splitOnChar
    rw [if_neg hne, ih hrest]

theorem splitOnChar_of_count_one (sep : Char) (l : List Char) (h : l.count sep = 1) :
    splitOnChar sep l
      = [l.takeWhile (fun ch => ch != sep), (l.dropWhile (fun ch => ch != sep)).drop 1] := by
  induction l with
  | nil => simp at h
  | cons ch rest ih =>
    unfold splitOnChar
    by_cases hc : ch = sep
    · subst hc
      have hrest : rest.count ch = 0 := by
        rw [List.count_cons] at h; simp at h; exact h
      rw [if_pos rfl, splitOnChar_of_count_zero ch rest hrest]
      simp [List.takeWhile, List.dropWhile]
    · have hrest : rest.count sep = 1 := by
        rw [List.count_cons] at h; simp [hc] at h; exact h
      have hb : (ch != sep) = true := by simp [hc]
      rw [if_neg hc, ih hrest]
      simp [List.takeWhile, List.dropWhile, hb]

theorem Split_length (cred : String) :
    (strings.Split cred ':').length = colonCount cred + 1 := by
  unfold strings.Split colonCount
  rw [List.length_map, splitOnChar_length]

theorem Split_of_one_colon (cred : String) (h : colonCount cred = 1) :
    strings.Split cred ':' = [beforeColon cred, afterColon cred] := by
  unfold strings.Split beforeColon afterColon
  rw [splitOnChar_of_count_one ':' cred.data h]
  rfl

/-- An entry whose colon count is not one takes the `len(parts) != 2` branch. -/
theorem processEntry_malformed {σ : Type} (R : Remote σ) (cred : String) (w : World σ)
    (h : colonCount cred ≠ 1) :
    processEntry R cred w = ({ AccessKey := cred, Valid := false, Details := "" }, w) := by
  unfold processEntry
  have hlen := Split_length cred
  split
  · rename_i a s heq
    rw [heq] at hlen
    simp at hlen
    omega
  · rfl

/-- An entry with exactly one colon is handed to `validateAndFetchDetails`. -/
theorem processEntry_wellformed {σ : Type} (R : Remote σ) (cred : String) (w : World σ)
    (h : colonCount cred = 1) :
    processEntry R cred w
      = validateAndFetchDetails R (beforeColon cred) (afterColon cred) w := by
  unfold processEntry
  rw [Split_of_one_colon cred h]

/-- The first SDK call of `validateAndFetchDetails` is always made. -/
theorem validateAndFetchDetails_log {σ : Type} (R : Remote σ) (accessKey secretKey : String)
    (w : World σ) :
    ∃ more, (validateAndFetchDetails R accessKey secretKey w).2.log
      = w.log ++ SdkCall.NewSession accessKey secretKey :: more := by
  unfold validateAndFetchDetails
  cases h1 : (R.NewSession accessKey secretKey w.oracle).1 with
  | none => exact ⟨[], by simp [h1]⟩
  | some sess =>
    cases h2 : (R.GetCallerIdentity sess (R.NewSession accessKey secretKey w.oracle).2).1 with
    | none => exact ⟨[SdkCall.GetCallerIdentity sess], by simp [h1, h2]⟩
    | some id =>
      refine ⟨[SdkCall.GetCallerIdentity sess, SdkCall.GetAccountAuthorizationDetails sess], ?_⟩
      simp only [h1, h2]
      split <;> simp

theorem append_ne_empty (a b : String) (ha : a.length ≠ 0) : a ++ b ≠ "" := by
  intro h
  have h2 := congrArg String.length h
  rw [String.length_append] at h2
  have h3 : "".length = 0 := rfl
  omega

theorem identitySummary_ne_empty (id : GetCallerIdentityOutput) : identitySummary id ≠ "" := by
  unfold identitySummary
  simp only [String.append_assoc]
  exact append_ne_empty _ _ (by decide)

/-- Details are present exactly when the record is valid. -/
theorem validateAndFetchDetails_details {σ : Type} (R : Remote σ) (accessKey secretKey : String)
    (w : World σ) :
    ((validateAndFetchDetails R accessKey secretKey w).1.Details ≠ ""
      ↔ (validateAndFetchDetails R accessKey secretKey w).1.Valid = true) := by
  unfold validateAndFetchDetails
  cases h1 : (R.NewSession accessKey secretKey w.oracle).1 with
  | none => simp [h1]
  | some sess =>
    cases h2 : (R.GetCallerIdentity sess (R.NewSession accessKey secretKey w.oracle).2).1 with
    | none => simp [h1, h2]
    | some id =>
      simp only [h1, h2]
      split
      · simpa using identitySummary_ne_empty id
      · simp only [iff_true]
        unfold identitySummary
        simp only [String.append_assoc]
        exact append_ne_empty _ _ (by decide)

theorem validateAndFetchDetails_accessKey {σ : Type} (R : Remote σ)
    (accessKey secretKey : String) (w : World σ) :
    (validateAndFetchDetails R accessKey secretKey w).1.AccessKey = accessKey := by
  unfold validateAndFetchDetails
  simp only []
  split
  · rfl
  · split
    · rfl
    · split <;> rfl

/-- A record is valid exactly when the session was created and the identity
call succeeded. -/
theorem validateAndFetchDetails_valid_iff {σ : Type} (R : Remote σ)
    (accessKey secretKey : String) (w : World σ) :
    (validateAndFetchDetails R accessKey secretKey w).1.Valid = true ↔
      ∃ sess, (R.NewSession accessKey secretKey w.oracle).1 = some sess ∧
        ((R.GetCallerIdentity sess (R.NewSession accessKey secretKey w.oracle).2).1).isSome
          = true := by
  unfold validateAndFetchDetails
  cases h1 : (R.NewSession accessKey secretKey w.oracle).1 with
  | none => simp [h1]
  | some sess =>
    cases h2 : (R.GetCallerIdentity sess (R.NewSession accessKey secretKey w.oracle).2).1 with
    | none => simp [h1, h2]
    | some id =>
      simp only [h1, h2]
      split <;> simp [h2]

/-! ## The worker -/

theorem processCredentials_cons {σ : Type} (R : Remote σ) (cred : String) (rest : List String)
    (w : World σ) :
    processCredentials R (cred :: rest) w
      = ((processEntry R cred w).1 :: (processCredentials R rest (processEntry R cred w).2).1,
         (processCredentials R rest (processEntry R cred w).2).2) := rfl

theorem processCredentials_append {σ : Type} (R : Remote σ) (xs ys : List String) (w : World σ) :
    processCredentials R (xs ++ ys) w
      = ((processCredentials R xs w).1 ++ (processCredentials R ys (processCredentials R xs w).2).1,
         (processCredentials R ys (processCredentials R xs w).2).2) := by
  induction xs generalizing w with
  | nil => rfl
  | cons x xs ih =>
    rw [List.cons_append, processCredentials_cons, processCredentials_cons, ih]
    rfl

theorem processCredentials_length {σ : Type} (R : Remote σ) (creds : List String) (w : World σ) :
    (processCredentials R creds w).1.length = creds.length := by
  induction creds generalizing w with
  | nil => rfl
  | cons x xs ih => rw [processCredentials_cons]; simp [ih]

theorem processEntry_accessKey {σ : Type} (R : Remote σ) (cred : String) (w : World σ) :
    (processEntry R cred w).1.AccessKey
      = if colonCount cred = 1 then beforeColon cred else cred := by
  by_cases h : colonCount cred = 1
  · rw [if_pos h, processEntry_wellformed R cred w h, validateAndFetchDetails_accessKey]
  · rw [if_neg h, processEntry_malformed R cred w h]

theorem processCredentials_getElem {σ : Type} (R : Remote σ) (creds : List String) (w : World σ)
    (i : Nat) (cred : String) (h : creds[i]? = some cred) :
    (processCredentials R creds w).1[i]?
      = some (processEntry R cred (processCredentials R (creds.take i) w).2).1 := by
  induction creds generalizing w i with
  | nil => simp at h
  | cons x xs ih =>
    cases i with
    | zero =>
      simp at h
      subst h
      rw [processCredentials_cons]
      simp [processCredentials]
    | succ j =>
      simp at h
      rw [processCredentials_cons, List.take_succ_cons, processCredentials_cons]
      simp only [List.getElem?_cons_succ]
      exact ih _ j h

/-- The goroutines run one after the other push what one goroutine given the
whole list would push. -/
theorem runWorkers_eq {σ : Type} (R : Remote σ) (chunks : List (List String)) (w : World σ) :
    runWorkers R chunks w = processCredentials R chunks.flatten w := by
  induction chunks generalizing w with
  | nil => rfl
  | cons c cs ih =>
    rw [List.flatten_cons, processCredentials_append]
    show ((processCredentials R c w).1 ++ (runWorkers R cs (processCredentials R c w).2).1,
          (runWorkers R cs (processCredentials R c w).2).2) = _
    rw [ih]

/-! ## Properties of the chunks -/

theorem chunkAt_succ (l : List String) (c j : Nat) :
    chunkAt l c (j + 1) = chunkAt (l.drop c) c j := by
  unfold chunkAt
  rw [List.drop_drop, Nat.add_mul, Nat.one_mul, Nat.add_comm]

theorem flatten_map_chunkAt (c : Nat) :
    ∀ (n : Nat) (l : List String), l.length ≤ n * c →
      ((List.range n).map (chunkAt l c)).flatten = l := by
  intro n
  induction n with
  | zero =>
    intro l h
    have : l = [] := List.length_eq_zero.mp (by omega)
    subst this; rfl
  | succ n ih =>
    intro l h
    rw [List.range_succ_eq_map, List.map_cons, List.map_map, List.flatten_cons]
    have hfun : chunkAt l c ∘ Nat.succ = chunkAt (l.drop c) c := by
      funext j; exact chunkAt_succ l c j
    rw [hfun, ih (l.drop c) (by rw [List.length_drop, Nat.add_mul, Nat.one_mul] at *; omega)]
    unfold chunkAt
    rw [Nat.zero_mul, List.drop_zero, List.take_append_drop]

theorem chunksOf_flatten (credentials : List String) (c : Nat)
    (hc : 0 < c ∨ credentials = []) : (chunksOf credentials c).flatten = credentials := by
  unfold chunksOf
  apply flatten_map_chunkAt
  rcases hc with h | h
  · exact ceilDiv_mul_ge _ _ h
  · subst h; simp

theorem chunksOf_length (credentials : List String) (c : Nat) :
    (chunksOf credentials c).length = ceilDiv credentials.length c := by
  unfold chunksOf; simp

theorem chunksOf_getElem? (credentials : List String) (c j : Nat)
    (hj : j < ceilDiv credentials.length c) :
    (chunksOf credentials c)[j]? = some ((credentials.drop (j * c)).take c) := by
  unfold chunksOf
  rw [List.getElem?_map, List.getElem?_range hj]
  rfl

theorem chunkAt_length (credentials : List String) (c j : Nat) :
    (chunkAt credentials c j).length = min c (credentials.length - j * c) := by
  unfold chunkAt
  rw [List.length_take, List.length_drop]

/-- Every chunk before the last is full. -/
theorem chunkAt_length_full (credentials : List String) (c j : Nat) (hc : 0 < c)
    (hj : j + 1 < ceilDiv credentials.length c) :
    (chunkAt credentials c j).length = c := by
  rw [chunkAt_length]
  have := (lt_ceilDiv_iff credentials.length c (j + 1) hc).1 hj
  rw [Nat.add_mul, Nat.one_mul] at this
  omega

/-- Every chunk is non-empty and at most `c` long. -/
theorem chunkAt_length_pos (credentials : List String) (c j : Nat) (hc : 0 < c)
    (hj : j < ceilDiv credentials.length c) :
    0 < (chunkAt credentials c j).length ∧ (chunkAt credentials c j).length ≤ c := by
  rw [chunkAt_length]
  have := (lt_ceilDiv_iff credentials.length c j hc).1 hj
  omega

/-! ## The aggregation loop -/

theorem foldl_aggregateStep_counts (debugFlag : Bool) (results : List CredentialInfo)
    (acc : Report) :
    (results.foldl (aggregateStep debugFlag) acc).validCount
        = acc.validCount + results.countP (fun r => r.Valid) ∧
    (results.foldl (aggregateStep debugFlag) acc).invalidCount
        = acc.invalidCount + results.countP (fun r => !r.Valid) := by
  induction results generalizing acc with
  | nil => simp
  | cons r rs ih =>
    rw [List.foldl_cons]
    obtain ⟨h1, h2⟩ := ih (aggregateStep debugFlag acc r)
    rw [h1, h2]
    unfold aggregateStep
    cases hv : r.Valid <;> simp [hv, List.countP_cons] <;> omega

theorem aggregate_validCount (debugFlag : Bool) (results : List CredentialInfo) :
    (aggregate debugFlag results).validCount = results.countP (fun r => r.Valid) := by
  unfold aggregate
  simp [(foldl_aggregateStep_counts debugFlag results _).1]

theorem aggregate_invalidCount (debugFlag : Bool) (results : List CredentialInfo) :
    (aggregate debugFlag results).invalidCount = results.countP (fun r => !r.Valid) := by
  unfold aggregate
  simp [(foldl_aggregateStep_counts debugFlag results _).2]

theorem countP_valid_add_invalid (results : List CredentialInfo) :
    results.countP (fun r => r.Valid) + results.countP (fun r => !r.Valid) = results.length := by
  induction results with
  | nil => rfl
  | cons r rs ih =>
    rw [List.countP_cons, List.countP_cons, List.length_cons]
    cases r.Valid <;> simp <;> omega

/-- The two counters add up to the number of records drained. -/
theorem aggregate_counts (debugFlag : Bool) (results : List CredentialInfo) :
    (aggregate debugFlag results).validCount + (aggregate debugFlag results).invalidCount
      = results.length := by
  rw [aggregate_validCount, aggregate_invalidCount, countP_valid_add_invalid]

/-- The counters do not depend on the order in which the records arrived. -/
theorem aggregate_counts_perm (debugFlag : Bool) (rs rs2 : List CredentialInfo)
    (h : rs.Perm rs2) :
    (aggregate debugFlag rs).validCount = (aggregate debugFlag rs2).validCount ∧
    (aggregate debugFlag rs).invalidCount = (aggregate debugFlag rs2).invalidCount := by
  rw [aggregate_validCount, aggregate_invalidCount, aggregate_validCount,
    aggregate_invalidCount]
  exact ⟨h.countP_eq _, h.countP_eq _⟩

/-! ## The four formats are told apart by their prefixes -/

theorem hasPrefix_append (pre rest : String) : hasPrefix (pre ++ rest) pre = true := by
  unfold hasPrefix
  rw [String.data_append, List.isPrefixOf_iff_prefix]
  exact List.prefix_append _ _

/-- Two texts that differ at position `n` within both are not prefixes of
each other's extensions. -/
theorem hasPrefix_of_diff (p q rest : String) (n : Nat) (a b : Char)
    (hp : p.data[n]? = some a) (hq : q.data[n]? = some b) (hab : a ≠ b) :
    hasPrefix (q ++ rest) p = false := by
  unfold hasPrefix
  rw [String.data_append]
  cases hpre : p.data.isPrefixOf (q.data ++ rest.data) with
  | false => rfl
  | true =>
    exfalso
    rw [List.isPrefixOf_iff_prefix] at hpre
    obtain ⟨t, ht⟩ := hpre
    have h1 : (p.data ++ t)[n]? = some a := by
      rw [List.getElem?_append_left (by
        rcases Nat.lt_or_ge n p.data.length with h | h
        · exact h
        · rw [List.getElem?_eq_none h] at hp; cases hp)]
      exact hp
    have h2 : (q.data ++ rest.data)[n]? = some b := by
      rw [List.getElem?_append_left (by
        rcases Nat.lt_or_ge n q.data.length with h | h
        · exact h
        · rw [List.getElem?_eq_none h] at hq; cases hq)]
      exact hq
    rw [ht, h2] at h1
    exact hab (Option.some.inj h1).symm

theorem classify_validLabel (x : String) :
    isValidBlock (validLabel ++ x) = true ∧ isInvalidLine (validLabel ++ x) = false ∧
    isValidCountLine (validLabel ++ x) = false ∧
    isInvalidCountLine (validLabel ++ x) = false := by
  refine ⟨hasPrefix_append _ _, ?_, ?_, ?_⟩
  · exact hasPrefix_of_diff _ _ _ 3 (Char.ofNat 49) (Char.ofNat 50) (by decide) (by decide)
      (by decide)
  · exact hasPrefix_of_diff _ _ _ 5 (Char.ofNat 78) (Char.ofNat 86) (by decide) (by decide)
      (by decide)
  · exact hasPrefix_of_diff _ _ _ 3 (Char.ofNat 49) (Char.ofNat 50) (by decide) (by decide)
      (by decide)

theorem classify_invalidLabel (x : String) :
    isValidBlock (invalidLabel ++ x) = false ∧ isInvalidLine (invalidLabel ++ x) = true ∧
    isValidCountLine (invalidLabel ++ x) = false ∧
    isInvalidCountLine (invalidLabel ++ x) = false := by
  refine ⟨?_, hasPrefix_append _ _, ?_, ?_⟩
  · exact hasPrefix_of_diff _ _ _ 3 (Char.ofNat 50) (Char.ofNat 49) (by decide) (by decide)
      (by decide)
  · exact hasPrefix_of_diff _ _ _ 3 (Char.ofNat 50) (Char.ofNat 49) (by decide) (by decide)
      (by decide)
  · exact hasPrefix_of_diff _ _ _ 5 (Char.ofNat 78) (Char.ofNat 73) (by decide) (by decide)
      (by decide)

theorem classify_validCountLabel (x : String) :
    isValidBlock (validCountLabel ++ x) = false ∧
    isInvalidLine (validCountLabel ++ x) = false ∧
    isValidCountLine (validCountLabel ++ x) = true ∧
    isInvalidCountLine (validCountLabel ++ x) = false := by
  refine ⟨?_, ?_, hasPrefix_append _ _, ?_⟩
  · exact hasPrefix_of_diff _ _ _ 5 (Char.ofNat 86) (Char.ofNat 78) (by decide) (by decide)
      (by decide)
  · exact hasPrefix_of_diff _ _ _ 3 (Char.ofNat 49) (Char.ofNat 50) (by decide) (by decide)
      (by decide)
  · exact hasPrefix_of_diff _ _ _ 3 (Char.ofNat 49) (Char.ofNat 50) (by decide) (by decide)
      (by decide)

theorem classify_invalidCountLabel (x : String) :
    isValidBlock (invalidCountLabel ++ x) = false ∧
    isInvalidLine (invalidCountLabel ++ x) = false ∧
    isValidCountLine (invalidCountLabel ++ x) = false ∧
    isInvalidCountLine (invalidCountLabel ++ x) = true := by
  refine ⟨?_, ?_, ?_, hasPrefix_append _ _⟩
  · exact hasPrefix_of_diff _ _ _ 3 (Char.ofNat 50) (Char.ofNat 49) (by decide) (by decide)
      (by decide)
  · exact hasPrefix_of_diff _ _ _ 5 (Char.ofNat 73) (Char.ofNat 78) (by decide) (by decide)
      (by decide)
  · exact hasPrefix_of_diff _ _ _ 3 (Char.ofNat 50) (Char.ofNat 49) (by decide) (by decide)
      (by decide)

theorem validBlock_eq (r : CredentialInfo) :
    validBlock r = validLabel ++ (" " ++ r.AccessKey ++ "\nDetails:\n" ++ r.Details ++ "\n\n") := by
  unfold validBlock validLabel; simp only [String.append_assoc]

theorem invalidLine_eq (r : CredentialInfo) :
    invalidLine r = invalidLabel ++ (" " ++ r.AccessKey ++ "\n") := by
  unfold invalidLine invalidLabel; simp only [String.append_assoc]

theorem validCountLine_eq (n : Nat) :
    validCountLine n = validCountLabel ++ (" " ++ toString n ++ "\n") := by
  unfold validCountLine validCountLabel; simp only [String.append_assoc]

theorem invalidCountLine_eq (n : Nat) :
    invalidCountLine n = invalidCountLabel ++ (" " ++ toString n ++ "\n") := by
  unfold invalidCountLine invalidCountLabel; simp only [String.append_assoc]

theorem classify_validBlock (r : CredentialInfo) :
    isValidBlock (validBlock r) = true ∧ isInvalidLine (validBlock r) = false ∧
    isValidCountLine (validBlock r) = false ∧ isInvalidCountLine (validBlock r) = false := by
  rw [validBlock_eq]; exact classify_validLabel _

theorem classify_invalidLine (r : CredentialInfo) :
    isValidBlock (invalidLine r) = false ∧ isInvalidLine (invalidLine r) = true ∧
    isValidCountLine (invalidLine r) = false ∧ isInvalidCountLine (invalidLine r) = false := by
  rw [invalidLine_eq]; exact classify_invalidLabel _

theorem classify_validCountLine (n : Nat) :
    isValidBlock (validCountLine n) = false ∧ isInvalidLine (validCountLine n) = false ∧
    isValidCountLine (validCountLine n) = true ∧ isInvalidCountLine (validCountLine n) = false := by
  rw [validCountLine_eq]; exact classify_validCountLabel _

theorem classify_invalidCountLine (n : Nat) :
    isValidBlock (invalidCountLine n) = false ∧ isInvalidLine (invalidCountLine n) = false ∧
    isValidCountLine (invalidCountLine n) = false ∧
    isInvalidCountLine (invalidCountLine n) = true := by
  rw [invalidCountLine_eq]; exact classify_invalidCountLabel _

/-! ## Runs of the partition loop that do not return -/

/-- With a chunk size of zero and a non-empty input the loop never ends. -/
theorem partitionLoop_zero_chunkSize (credentials : List String)
    (hpos : 0 < credentials.length) :
    ∀ (fuel : Nat) (acc : List (List String)),
      partitionLoop credentials 0 fuel 0 acc = .outOfFuel := by
  intro fuel
  induction fuel with
  | zero => intro acc; rfl
  | succ fuel ih =>
    intro acc
    rw [partitionLoop]
    have hlt : (0 : Int) < (credentials.length : Int) := by omega
    have hadd : goAdd 0 0 = 0 := by decide
    have hslice : sliceExpr credentials 0 0 = some [] := by
      unfold sliceExpr
      rw [if_pos (by omega)]
      simp
    rw [if_pos hlt]
    simp only [hadd]
    rw [if_neg (by omega), hslice]
    exact ih _

/-- With a negative chunk size and a non-empty input the first slice
expression panics. -/
theorem partitionLoop_negative_chunkSize (credentials : List String) (c : Int)
    (hpos : 0 < credentials.length) (hc : c < 0) (hmin : -(2 ^ 63) ≤ c)
    (fuel : Nat) (acc : List (List String)) :
    partitionLoop credentials c (fuel + 1) 0 acc = .panic "slice bounds out of range" := by
  rw [partitionLoop]
  have hlt : (0 : Int) < (credentials.length : Int) := by omega
  have hadd : goAdd 0 c = c := by
    unfold goAdd
    rw [Int.zero_add]
    exact wrapInt_id hmin (by omega)
  have hslice : sliceExpr credentials 0 c = none := by
    unfold sliceExpr
    rw [if_neg (by omega)]
  rw [if_pos hlt]
  simp only [hadd]
  rw [if_neg (by omega), hslice]

theorem partition_not_ok_of_chunkSize_neg (credentials : List String) (threads c : Int)
    (hpos : 0 < credentials.length) (hcs : chunkSize (credentials.length : Int) threads = some c)
    (hc : c < 0) (hmin : -(2 ^ 63) ≤ c) :
    ¬ ∃ fuel chunks, partition fuel credentials threads = .ok chunks := by
  rintro ⟨fuel, chunks, h⟩
  unfold partition at h
  rw [hcs] at h
  cases fuel with
  | zero => simp [partitionLoop] at h
  | succ f =>
    simp only [] at h
    rw [partitionLoop_negative_chunkSize credentials c hpos hc hmin] at h
    cases h

/-! ## What the partition loop returns, whatever the chunk size -/

theorem sliceExpr_some {α : Type} (s : List α) (i j : Int) (chunk : List α)
    (h : sliceExpr s i j = some chunk) :
    0 ≤ i ∧ i ≤ j ∧ j ≤ (s.length : Int)
      ∧ chunk = (s.drop i.toNat).take (j.toNat - i.toNat) := by
  unfold sliceExpr at h
  by_cases hc : 0 ≤ i ∧ i ≤ j ∧ j ≤ (s.length : Int)
  · rw [if_pos hc] at h
    exact ⟨hc.1, hc.2.1, hc.2.2, (Option.some.inj h).symm⟩
  · rw [if_neg hc] at h
    cases h

theorem take_append_take_drop {α : Type} (l : List α) (a b : Nat) (hab : a ≤ b) :
    l.take a ++ (l.drop a).take (b - a) = l.take b := by
  have h := List.take_add l a (b - a)
  rw [Nat.add_sub_cancel' hab] at h
  exact h.symm

/-- Whenever the partition loop returns, the chunks it handed out are the
input, cut into consecutive pieces: this holds for every chunk size. -/
theorem partitionLoop_flatten (credentials : List String) (c : Int) :
    ∀ (fuel : Nat) (i : Int) (acc chunks : List (List String)), 0 ≤ i →
      acc.flatten = credentials.take i.toNat →
      partitionLoop credentials c fuel i acc = .ok chunks →
      chunks.flatten = credentials := by
  intro fuel
  induction fuel with
  | zero =>
    intro i acc chunks _ _ h
    rw [partitionLoop] at h
    cases h
  | succ fuel ih =>
    intro i acc chunks hi hacc h
    rw [partitionLoop] at h
    by_cases hlt : i < (credentials.length : Int)
    · rw [if_pos hlt] at h
      simp only [] at h
      cases hs : sliceExpr credentials i
          (if goAdd i c > (credentials.length : Int) then (credentials.length : Int)
            else goAdd i c) with
      | none => rw [hs] at h; cases h
      | some chunk =>
        rw [hs] at h
        simp only [] at h
        obtain ⟨_, h2, h3, hchunk⟩ := sliceExpr_some _ _ _ _ hs
        by_cases hgt : goAdd i c > (credentials.length : Int)
        · rw [if_pos hgt] at h2 h3 hchunk
          refine ih (goAdd i c) (acc ++ [chunk]) chunks (by omega) ?_ h
          rw [List.flatten_append, hacc, hchunk]
          simp only [List.flatten_cons, List.flatten_nil, List.append_nil, Int.toNat_ofNat]
          rw [take_append_take_drop _ _ _ (by omega), List.take_length,
            List.take_of_length_le (by omega)]
        · rw [if_neg hgt] at h2 h3 hchunk
          refine ih (goAdd i c) (acc ++ [chunk]) chunks (by omega) ?_ h
          rw [List.flatten_append, hacc, hchunk]
          simp only [List.flatten_cons, List.flatten_nil, List.append_nil]
          exact take_append_take_drop _ _ _ (by omega)
    · rw [if_neg hlt] at h
      cases h
      rw [hacc]
      exact List.take_of_length_le (by omega)

theorem partition_flatten (fuel : Nat) (credentials : List String) (threads : Int)
    (chunks : List (List String)) (h : partition fuel credentials threads = .ok chunks) :
    chunks.flatten = credentials := by
  unfold partition at h
  cases hc : chunkSize (credentials.length : Int) threads with
  | none => rw [hc] at h; cases h
  | some c =>
    rw [hc] at h
    exact partitionLoop_flatten credentials c fuel 0 [] chunks (Int.le_refl 0) rfl h

/-! ## C1: the partition property -/

/-- C1 fails on the code at `-t 9223372036854775807` (a worker count
`K ≥ 1`) with two entries: the sum `len + K` wraps around, the chunk size is
`-1`, the first slice expression `credentials[0:-1]` panics, and no chunk is
handed to any worker, whatever the fuel. -/
theorem C1_partition_overflow :
    (1 : Int) ≤ 9223372036854775807 ∧
    chunkSize 2 9223372036854775807 = some (-1) ∧
    partition 3 ["a:b", "c:d"] 9223372036854775807 = .panic "slice bounds out of range" ∧
    ¬ ∃ fuel chunks, partition fuel ["a:b", "c:d"] 9223372036854775807 = .ok chunks := by
  refine ⟨by decide, by decide, ?_, ?_⟩
  · unfold partition
    rw [show chunkSize (([("a:b" : String), "c:d"].length : Nat) : Int) 9223372036854775807
      = some (-1) from by decide]
    exact partitionLoop_negative_chunkSize _ (-1) (by decide) (by decide) (by decide) 2 []
  · exact partition_not_ok_of_chunkSize_neg _ _ (-1) (by decide) (by decide) (by decide)
      (by decide)

/-- The partition property where the chunk-size computation does not
overflow: for every input list of length `L` and every worker count `K ≥ 1`
with `L + K - 1 ≤ 2^63 - 1`, the partition loop returns (with any fuel above
`L`), and its chunks, for `c = (L + K - 1) / K = ⌈L/K⌉`, satisfy: their
concatenation is the input; the `j`-th chunk is
`credentials[j*c : min((j+1)*c, L)]`; every chunk but the last has length
exactly `c`; the last has length between `1` and `c`. -/
theorem partition_property_in_range (credentials : List String) (K : Nat) (hK : 1 ≤ K)
    (hov : credentials.length + K - 1 < 2 ^ 63) :
    ∃ chunks : List (List String),
      (∀ fuel, credentials.length < fuel →
        partition fuel credentials (K : Int) = .ok chunks) ∧
      chunks.flatten = credentials ∧
      (credentials.length ≤ ceilDiv credentials.length K * K ∧
        ceilDiv credentials.length K * K < credentials.length + K) ∧
      (∀ j, j < chunks.length →
        chunks[j]? = some ((credentials.drop (j * ceilDiv credentials.length K)).take
          (ceilDiv credentials.length K))) ∧
      (∀ (j : Nat) (chunk : List String), chunks[j]? = some chunk → j + 1 < chunks.length →
        chunk.length = ceilDiv credentials.length K) ∧
      (∀ (j : Nat) (chunk : List String), chunks[j]? = some chunk →
        0 < chunk.length ∧ chunk.length ≤ ceilDiv credentials.length K) := by
  refine ⟨chunksOf credentials (ceilDiv credentials.length K),
    fun fuel hf => partition_ok credentials K hK hov fuel hf, ?_, ?_, ?_, ?_, ?_⟩
  · apply chunksOf_flatten
    rcases Nat.eq_zero_or_pos credentials.length with h | h
    · exact Or.inr (List.length_eq_zero.mp h)
    · exact Or.inl (ceilDiv_pos _ _ h hK)
  · have h1 := ceilDiv_mul_ge credentials.length K hK
    have h2 := ceilDiv_mul_le credentials.length K
    omega
  · intro j hj
    rw [chunksOf_length] at hj
    exact chunksOf_getElem? credentials _ j hj
  · intro j chunk hget hj
    rw [chunksOf_length] at hj
    have hj0 : j < ceilDiv credentials.length (ceilDiv credentials.length K) := by omega
    have hpos : 0 < credentials.length := by
      rcases Nat.eq_zero_or_pos credentials.length with h | h
      · simp only [h, ceilDiv_zero_left] at hj0; omega
      · exact h
    rw [chunksOf_getElem? credentials _ j hj0] at hget
    cases hget
    exact chunkAt_length_full credentials _ j (ceilDiv_pos _ _ hpos hK) hj
  · intro j chunk hget
    have hj0 : j < ceilDiv credentials.length (ceilDiv credentials.length K) := by
      have := (List.getElem?_eq_some_iff.1 hget).1
      rwa [chunksOf_length] at this
    have hpos : 0 < credentials.length := by
      rcases Nat.eq_zero_or_pos credentials.length with h | h
      · simp only [h, ceilDiv_zero_left] at hj0; omega
      · exact h
    rw [chunksOf_getElem? credentials _ j hj0] at hget
    cases hget
    exact chunkAt_length_pos credentials _ j (ceilDiv_pos _ _ hpos hK) hj0

/-- The partition property at five entries and two workers. -/
theorem partition_property_five_entries :
    1 ≤ 2 ∧ fiveEntries.length + 2 - 1 < 2 ^ 63 ∧
    ∃ chunks : List (List String),
      (∀ fuel, fiveEntries.length < fuel →
        partition fuel fiveEntries ((2 : Nat) : Int) = .ok chunks) ∧
      chunks.flatten = fiveEntries ∧
      (fiveEntries.length ≤ ceilDiv fiveEntries.length 2 * 2 ∧
        ceilDiv fiveEntries.length 2 * 2 < fiveEntries.length + 2) ∧
      (∀ j, j < chunks.length →
        chunks[j]? = some ((fiveEntries.drop (j * ceilDiv fiveEntries.length 2)).take
          (ceilDiv fiveEntries.length 2))) ∧
      (∀ (j : Nat) (chunk : List String), chunks[j]? = some chunk → j + 1 < chunks.length →
        chunk.length = ceilDiv fiveEntries.length 2) ∧
      (∀ (j : Nat) (chunk : List String), chunks[j]? = some chunk →
        0 < chunk.length ∧ chunk.length ≤ ceilDiv fiveEntries.length 2) :=
  ⟨by decide, by decide, partition_property_in_range fiveEntries 2 (by decide) (by decide)⟩

/-! ## C8: the number of workers -/

/-- C8 fails on the code at `-t 9223372036854775807` (a worker count `K ≥ 1`)
with three entries: the chunk size wraps to `-1` and the loop panics on its
first slice expression, so it starts no worker, not the `⌈3 / ⌈3/K⌉⌉ = 3` of
the claim. -/
theorem C8_worker_count_overflow :
    (1 : Int) ≤ 9223372036854775807 ∧
    ceilDiv 3 (ceilDiv 3 9223372036854775807) = 3 ∧
    partition 4 ["a:b", "c:d", "e:f"] 9223372036854775807
      = .panic "slice bounds out of range" ∧
    ¬ ∃ fuel chunks, partition fuel ["a:b", "c:d", "e:f"] 9223372036854775807 = .ok chunks := by
  refine ⟨by decide, by decide, ?_, ?_⟩
  · unfold partition
    rw [show chunkSize (([("a:b" : String), "c:d", "e:f"].length : Nat) : Int)
      9223372036854775807 = some (-1) from by decide]
    exact partitionLoop_negative_chunkSize _ _ (by decide) (by decide) (by decide) 3 []
  · exact partition_not_ok_of_chunkSize_neg _ _ (-1) (by decide) (by decide)
      (by decide) (by decide)

/-- The worker bound where the chunk-size computation does not overflow: for
every input length `L ≥ 0` and every worker count `K ≥ 1` with
`L + K - 1 ≤ 2^63 - 1`, the partition loop returns and the number of workers
it starts is `⌈L / ⌈L/K⌉⌉` (which is `0` when `L = 0`), is at most `K`, every
started worker receives a non-empty chunk, and when `K > L` exactly `L`
workers are started, fewer than `K`. -/
theorem worker_bound_in_range (credentials : List String) (K : Nat) (hK : 1 ≤ K)
    (hov : credentials.length + K - 1 < 2 ^ 63) :
    ∃ chunks : List (List String),
      (∀ fuel, credentials.length < fuel →
        partition fuel credentials (K : Int) = .ok chunks) ∧
      chunks.length = ceilDiv credentials.length (ceilDiv credentials.length K) ∧
      (credentials.length = 0 → chunks.length = 0) ∧
      chunks.length ≤ K ∧
      (∀ chunk ∈ chunks, chunk ≠ []) ∧
      (credentials.length < K → chunks.length = credentials.length ∧ chunks.length < K) := by
  refine ⟨chunksOf credentials (ceilDiv credentials.length K),
    fun fuel hf => partition_ok credentials K hK hov fuel hf, chunksOf_length _ _, ?_, ?_, ?_, ?_⟩
  · intro h0
    simp only [chunksOf_length, h0, ceilDiv_zero_left]
  · rw [chunksOf_length]
    exact ceilDiv_ceilDiv_le _ _ hK
  · intro chunk hmem
    unfold chunksOf at hmem
    rw [List.mem_map] at hmem
    obtain ⟨j, hj, rfl⟩ := hmem
    rw [List.mem_range] at hj
    have hpos : 0 < credentials.length := by
      rcases Nat.eq_zero_or_pos credentials.length with h | h
      · simp only [h, ceilDiv_zero_left] at hj; omega
      · exact h
    have := (chunkAt_length_pos credentials _ j (ceilDiv_pos _ _ hpos hK) hj).1
    intro hnil
    rw [hnil] at this
    simp at this
  · intro hlt
    rw [chunksOf_length]
    rcases Nat.eq_zero_or_pos credentials.length with h | h
    · rw [h] at hlt ⊢
      rw [ceilDiv_zero_left]
      exact ⟨rfl, hlt⟩
    · rw [ceilDiv_of_lt _ _ h hlt, ceilDiv_one]
      exact ⟨rfl, hlt⟩

/-- The worker bound at five entries and seven workers: five workers start. -/
theorem worker_bound_five_entries :
    1 ≤ 7 ∧ fiveEntries.length + 7 - 1 < 2 ^ 63 ∧
    ∃ chunks : List (List String),
      (∀ fuel, fiveEntries.length < fuel →
        partition fuel fiveEntries ((7 : Nat) : Int) = .ok chunks) ∧
      chunks.length = ceilDiv fiveEntries.length (ceilDiv fiveEntries.length 7) ∧
      (fiveEntries.length = 0 → chunks.length = 0) ∧
      chunks.length ≤ 7 ∧
      (∀ chunk ∈ chunks, chunk ≠ []) ∧
      (fiveEntries.length < 7 → chunks.length = fiveEntries.length ∧ chunks.length < 7) :=
  ⟨by decide, by decide, worker_bound_in_range fiveEntries 7 (by decide) (by decide)⟩

/-- With `-t 4` and five entries the chunk size is `2` and the loop starts
three goroutines, one fewer than the four that the usage text of `-t`
("Number of goroutines to use") names. -/
theorem partition_five_entries_four_threads :
    chunkSize 5 4 = some 2 ∧
    ∀ fuel, fiveEntries.length < fuel →
      partition fuel fiveEntries 4
        = .ok [["k1:s1", "k2:s2"], ["k3:s3", "k4:s4"], ["k5:s5"]] := by
  refine ⟨by decide, ?_⟩
  intro fuel hfuel
  have h := partition_ok fiveEntries 4 (by decide) (by decide) fuel hfuel
  rw [show (((4 : Nat) : Int)) = (4 : Int) from rfl] at h
  rw [h]
  decide

/-! ## `main` -/

theorem collect_ok (flags : Flags) (fs : String → FileRead) (lines : List String)
    (hfile : flags.f ≠ "" → fs flags.f = .scanned lines none)
    (hnofile : flags.f = "" → lines = []) :
    collect flags fs = .ok (inputEntries flags.k lines) := by
  unfold collect inputEntries
  by_cases hf : flags.f = ""
  · rw [if_neg (not_not.mpr hf), hnofile hf, List.append_nil]
  · rw [if_pos hf, hfile hf]

theorem main_of_partition_ok {σ : Type} (R : Remote σ) (w : World σ) (fuel : Nat)
    (flags : Flags) (fs : String → FileRead) (credentials : List String)
    (chunks : List (List String)) (hc : collect flags fs = .ok credentials)
    (hp : partition fuel credentials flags.t = .ok chunks) :
    main fuel flags fs R w = .ok (aggregate flags.d (runWorkers R chunks w).1) := by
  unfold main
  rw [hc]
  simp only []
  rw [hp]

theorem main_of_partition {σ : Type} (R : Remote σ) (w : World σ) (fuel : Nat)
    (flags : Flags) (fs : String → FileRead) (credentials : List String)
    (hc : collect flags fs = .ok credentials) :
    (∀ msg, partition fuel credentials flags.t = .panic msg →
      main fuel flags fs R w = .panic msg) ∧
    (partition fuel credentials flags.t = .outOfFuel → main fuel flags fs R w = .outOfFuel) ∧
    (∀ report, main fuel flags fs R w = .ok report →
      ∃ chunks, partition fuel credentials flags.t = .ok chunks) := by
  unfold main
  rw [hc]
  simp only []
  refine ⟨?_, ?_, ?_⟩
  · intro msg hp; rw [hp]
  · intro hp; rw [hp]
  · intro report h
    cases hp : partition fuel credentials flags.t with
    | ok chunks => exact ⟨chunks, rfl⟩
    | exit code out => rw [hp] at h; cases h
    | panic msg => rw [hp] at h; cases h
    | outOfFuel => rw [hp] at h; cases h

theorem runWorkers_length {σ : Type} (R : Remote σ) (chunks : List (List String))
    (w : World σ) : (runWorkers R chunks w).1.length = chunks.flatten.length := by
  rw [runWorkers_eq, processCredentials_length]

/-- Whenever `main` returns, its counters add up to the number of entries
collected: this holds for every value of `-t`. -/
theorem main_counts_of_ok {σ : Type} (R : Remote σ) (w : World σ) (fuel : Nat)
    (flags : Flags) (fs : String → FileRead) (credentials : List String) (report : Report)
    (hc : collect flags fs = .ok credentials)
    (h : main fuel flags fs R w = .ok report) :
    report.validCount + report.invalidCount = credentials.length := by
  obtain ⟨chunks, hp⟩ := (main_of_partition R w fuel flags fs credentials hc).2.2 report h
  rw [main_of_partition_ok R w fuel flags fs credentials chunks hc hp] at h
  cases h
  rw [aggregate_counts, runWorkers_length, partition_flatten fuel credentials flags.t chunks hp]

/-! ## C2: count conservation -/

/-- C2: for every input list of entries (the `-k` value followed by the lines
of the `-f` file, read without error), every worker count `K ≥ 1` and every
behaviour of the stubbed remote calls, the counters that the aggregation loop
of `main` computes satisfy `validCount + invalidCount = L`, the number of
entries: every report `main` returns has this property, the aggregation loop
gives it for any `L` records whatever their order of arrival, and when
`L + K - 1 ≤ 2^63 - 1` (the chunk-size sum does not overflow) `main` does
return, with any fuel above `L`. -/
theorem C2_count_conservation {σ : Type} (R : Remote σ) (w : World σ) (flags : Flags)
    (fs : String → FileRead) (lines : List String) (K : Nat)
    (hfile : flags.f ≠ "" → fs flags.f = .scanned lines none)
    (hnofile : flags.f = "" → lines = [])
    (ht : flags.t = (K : Int)) (hK : 1 ≤ K) :
    (∀ (fuel : Nat) (report : Report), main fuel flags fs R w = .ok report →
      report.validCount + report.invalidCount = (inputEntries flags.k lines).length) ∧
    (∀ rs : List CredentialInfo, rs.length = (inputEntries flags.k lines).length →
      (aggregate flags.d rs).validCount + (aggregate flags.d rs).invalidCount
        = (inputEntries flags.k lines).length) ∧
    ((inputEntries flags.k lines).length + K - 1 < 2 ^ 63 →
      ∃ report : Report,
        (∀ fuel, (inputEntries flags.k lines).length < fuel →
          main fuel flags fs R w = .ok report) ∧
        report.validCount + report.invalidCount = (inputEntries flags.k lines).length) := by
  have hc := collect_ok flags fs lines hfile hnofile
  refine ⟨?_, ?_, ?_⟩
  · intro fuel report h
    exact main_counts_of_ok R w fuel flags fs _ report hc h
  · intro rs hrs
    rw [aggregate_counts, hrs]
  · intro hov
    have hp := partition_ok (inputEntries flags.k lines) K hK hov
      ((inputEntries flags.k lines).length + 1) (Nat.lt_succ_self _)
    rw [← ht] at hp
    have hm := main_of_partition_ok R w _ flags fs _ _ hc hp
    refine ⟨_, ?_, main_counts_of_ok R w _ flags fs _ _ hc hm⟩
    intro fuel hfuel
    apply main_of_partition_ok R w fuel flags fs _ _ hc
    rw [ht]
    exact partition_ok _ K hK hov fuel hfuel

/-- C2 at the entries `k1:s1` (from `-k`) and `c:d` (from the file) with two
workers: `main` returns and its counters add up to two. -/
theorem C2_count_conservation_witness :
    ∃ report : Report,
      (∀ fuel, (inputEntries "k1:s1" ["c:d"]).length < fuel →
        main fuel ⟨"k1:s1", "creds.txt", 2, true⟩ oneLineFile stubDetailFails world0
          = .ok report) ∧
      report.validCount + report.invalidCount = (inputEntries "k1:s1" ["c:d"]).length :=
  (C2_count_conservation stubDetailFails world0 ⟨"k1:s1", "creds.txt", 2, true⟩ oneLineFile
    ["c:d"] 2 (fun _ => rfl) (fun h => absurd h (by decide)) rfl (by decide)).2.2 (by decide)

/-! ## C6: the exit status -/

/-- C6 fails on the code.  With the file absent: `-t 0` panics with "integer
divide by zero" (exit status 2) whatever the fuel.  With a file read without
error (entries `a:b` and `c:d`): `-t -1` gives a chunk size of zero, so the
partition loop never ends; `-t 9223372036854775807` overflows the chunk-size
computation and panics with "slice bounds out of range" (exit status 2). -/
theorem C6_exit_status_failing_inputs :
    (∀ fuel, main fuel ⟨"AKIA1:secret1", "", 0, false⟩ noFiles stubDetailFails world0
      = .panic "integer divide by zero") ∧
    exitStatus (main 5 ⟨"AKIA1:secret1", "", 0, false⟩ noFiles stubDetailFails world0)
      = some 2 ∧
    (∀ fuel, main fuel ⟨"a:b", "creds.txt", -1, false⟩ oneLineFile stubDetailFails world0
      = .outOfFuel) ∧
    (∀ fuel, exitStatus
      (main fuel ⟨"a:b", "creds.txt", -1, false⟩ oneLineFile stubDetailFails world0) = none) ∧
    (∀ fuel, main (fuel + 1) ⟨"a:b", "creds.txt", 9223372036854775807, false⟩ oneLineFile
      stubDetailFails world0 = .panic "slice bounds out of range") := by
  have hc0 : collect ⟨"AKIA1:secret1", "", 0, false⟩ noFiles = .ok ["AKIA1:secret1"] := by
    decide
  have hc1 : collect ⟨"a:b", "creds.txt", -1, false⟩ oneLineFile = .ok ["a:b", "c:d"] := by
    decide
  have hc2 : collect ⟨"a:b", "creds.txt", 9223372036854775807, false⟩ oneLineFile
      = .ok ["a:b", "c:d"] := by decide
  have h0 : ∀ fuel, main fuel ⟨"AKIA1:secret1", "", 0, false⟩ noFiles stubDetailFails world0
      = .panic "integer divide by zero" := by
    intro fuel
    apply (main_of_partition stubDetailFails world0 fuel _ _ _ hc0).1
    unfold partition
    rw [show chunkSize (([("AKIA1:secret1" : String)].length : Nat) : Int) 0 = none
      from by decide]
  have h1 : ∀ fuel, main fuel ⟨"a:b", "creds.txt", -1, false⟩ oneLineFile stubDetailFails
      world0 = .outOfFuel := by
    intro fuel
    apply (main_of_partition stubDetailFails world0 fuel _ _ _ hc1).2.1
    unfold partition
    rw [show chunkSize (([("a:b" : String), "c:d"].length : Nat) : Int) (-1) = some 0
      from by decide]
    exact partitionLoop_zero_chunkSize _ (by decide) fuel []
  refine ⟨h0, ?_, h1, ?_, ?_⟩
  · rw [h0 5]; rfl
  · intro fuel; rw [h1 fuel]; rfl
  · intro fuel
    apply (main_of_partition stubDetailFails world0 (fuel + 1) _ _ _ hc2).1
    unfold partition
    rw [show chunkSize (([("a:b" : String), "c:d"].length : Nat) : Int) 9223372036854775807
      = some (-1) from by decide]
    exact partitionLoop_negative_chunkSize _ (-1) (by decide) (by decide) (by decide) fuel []

/-! ## C3: entries with an empty half -/

theorem stubStaticCreds_rejectsEmptyStaticCreds : stubStaticCreds.rejectsEmptyStaticCreds := by
  intro accessKey secretKey o o2 sess hempty hsess
  have hs : sess = ⟨accessKey, secretKey⟩ := (Option.some.inj hsess).symm
  subst hs
  show (if accessKey = "" ∨ secretKey = "" then (none, o2)
    else (some (⟨"u1", "111", "arn:aws:iam::111:user/u1"⟩ : GetCallerIdentityOutput), o2)).1
      = none
  rw [if_pos hempty]

/-- An identity call that fails leaves an invalid record and no detail call. -/
theorem validateAndFetchDetails_of_identity_fails {σ : Type} (R : Remote σ)
    (accessKey secretKey : String) (w : World σ)
    (h : ∀ sess, (R.NewSession accessKey secretKey w.oracle).1 = some sess →
      (R.GetCallerIdentity sess (R.NewSession accessKey secretKey w.oracle).2).1 = none) :
    (validateAndFetchDetails R accessKey secretKey w).1
      = { AccessKey := accessKey, Valid := false, Details := "" } ∧
    ((validateAndFetchDetails R accessKey secretKey w).2.log
        = w.log ++ [SdkCall.NewSession accessKey secretKey] ∨
      ∃ sess, (validateAndFetchDetails R accessKey secretKey w).2.log
        = w.log ++ [SdkCall.NewSession accessKey secretKey, SdkCall.GetCallerIdentity sess]) := by
  unfold validateAndFetchDetails
  cases h1 : (R.NewSession accessKey secretKey w.oracle).1 with
  | none => simp [h1]
  | some sess =>
    have h2 := h sess h1
    refine ⟨by simp [h1, h2], Or.inr ⟨sess, by simp [h1, h2]⟩⟩

/-- C3 as stated fails: the entry `:secret` has an empty access-key half, yet
`processCredentials` does not reject it locally but hands it to
`validateAndFetchDetails`: the session creation and the identity call are
both made with the empty access key (and the record is invalid because the
identity call fails). -/
theorem C3_counterexample :
    colonCount ":secret" = 1 ∧ beforeColon ":secret" = "" ∧
    processEntry stubStaticCreds ":secret" world0
      = validateAndFetchDetails stubStaticCreds "" "secret" world0 ∧
    (processCredentials stubStaticCreds [":secret"] world0).2.log
      = [SdkCall.NewSession "" "secret", SdkCall.GetCallerIdentity ⟨"", "secret"⟩] ∧
    (processCredentials stubStaticCreds [":secret"] world0).1
      = [{ AccessKey := "", Valid := false, Details := "" }] := by
  refine ⟨by decide, by decide, ?_, ?_, ?_⟩
  · rw [processEntry_wellformed _ _ _ (by decide)]
    rfl
  · rw [processCredentials_cons, processEntry_wellformed _ _ _ (by decide)]
    rfl
  · rw [processCredentials_cons, processEntry_wellformed _ _ _ (by decide)]
    rfl

/-- C3, amended: an entry with exactly one colon whose access-key half or
secret-key half is empty is recorded as invalid (`Valid = false`, empty
`Details`), but not by a local check: `processCredentials` invokes
`validateAndFetchDetails` on the two halves as they are, the session creation
and, when it succeeds, the identity call are attempted through the SDK, which
rejects empty static credentials; the detail call is never made, and the
remaining entries are processed afterwards. -/
theorem C3_empty_half_recorded_invalid {σ : Type} (R : Remote σ) (cred : String)
    (rest : List String) (w : World σ) (hone : colonCount cred = 1)
    (hempty : beforeColon cred = "" ∨ afterColon cred = "")
    (hsdk : R.rejectsEmptyStaticCreds) :
    (processEntry R cred w).1
      = { AccessKey := beforeColon cred, Valid := false, Details := "" } ∧
    processEntry R cred w
      = validateAndFetchDetails R (beforeColon cred) (afterColon cred) w ∧
    ((processEntry R cred w).2.log
        = w.log ++ [SdkCall.NewSession (beforeColon cred) (afterColon cred)] ∨
      ∃ sess, (processEntry R cred w).2.log
        = w.log ++ [SdkCall.NewSession (beforeColon cred) (afterColon cred),
            SdkCall.GetCallerIdentity sess]) ∧
    processCredentials R (cred :: rest) w
      = ({ AccessKey := beforeColon cred, Valid := false, Details := "" }
          :: (processCredentials R rest (processEntry R cred w).2).1,
         (processCredentials R rest (processEntry R cred w).2).2) := by
  have h := processEntry_wellformed R cred w hone
  have hv := validateAndFetchDetails_of_identity_fails R (beforeColon cred) (afterColon cred) w
    (fun sess hs => hsdk _ _ _ _ sess hempty hs)
  refine ⟨?_, h, ?_, ?_⟩
  · rw [h]; exact hv.1
  · rw [h]; exact hv.2
  · rw [processCredentials_cons, h, hv.1]

/-- C3, amended, at the entry `AKIA1:` (empty secret half) followed by
`bad-entry`. -/
theorem C3_empty_half_recorded_invalid_witness :
    colonCount "AKIA1:" = 1 ∧ (beforeColon "AKIA1:" = "" ∨ afterColon "AKIA1:" = "") ∧
    stubStaticCreds.rejectsEmptyStaticCreds ∧
    (processEntry stubStaticCreds "AKIA1:" world0).1
      = { AccessKey := beforeColon "AKIA1:", Valid := false, Details := "" } ∧
    processEntry stubStaticCreds "AKIA1:" world0
      = validateAndFetchDetails stubStaticCreds (beforeColon "AKIA1:") (afterColon "AKIA1:")
          world0 ∧
    ((processEntry stubStaticCreds "AKIA1:" world0).2.log
        = world0.log ++ [SdkCall.NewSession (beforeColon "AKIA1:") (afterColon "AKIA1:")] ∨
      ∃ sess, (processEntry stubStaticCreds "AKIA1:" world0).2.log
        = world0.log ++ [SdkCall.NewSession (beforeColon "AKIA1:") (afterColon "AKIA1:"),
            SdkCall.GetCallerIdentity sess]) ∧
    processCredentials stubStaticCreds ("AKIA1:" :: ["bad-entry"]) world0
      = ({ AccessKey := beforeColon "AKIA1:", Valid := false, Details := "" }
          :: (processCredentials stubStaticCreds ["bad-entry"]
              (processEntry stubStaticCreds "AKIA1:" world0).2).1,
         (processCredentials stubStaticCreds ["bad-entry"]
              (processEntry stubStaticCreds "AKIA1:" world0).2).2) :=
  ⟨by decide, Or.inr (by decide), stubStaticCreds_rejectsEmptyStaticCreds,
    C3_empty_half_recorded_invalid stubStaticCreds "AKIA1:" ["bad-entry"] world0 (by decide)
      (Or.inr (by decide)) stubStaticCreds_rejectsEmptyStaticCreds⟩

/-! ## C4: entries whose colon count is not one -/

/-- C4: an entry that does not contain exactly one colon is recorded with
`Valid = false` and empty `Details`, no SDK call is made for it (the state and
the call log are unchanged), and `processCredentials` goes on with the
remaining entries; conversely, whenever processing an entry makes a call, the
entry has exactly one colon. -/
theorem C4_malformed_colon_count {σ : Type} (R : Remote σ) (cred : String)
    (rest : List String) (w : World σ) (h : colonCount cred ≠ 1) :
    processEntry R cred w = ({ AccessKey := cred, Valid := false, Details := "" }, w) ∧
    (processEntry R cred w).2.log = w.log ∧
    processCredentials R (cred :: rest) w
      = ({ AccessKey := cred, Valid := false, Details := "" }
          :: (processCredentials R rest w).1, (processCredentials R rest w).2) ∧
    (∀ (cred2 : String) (w2 : World σ),
      (processEntry R cred2 w2).2.log ≠ w2.log → colonCount cred2 = 1) := by
  have hm := processEntry_malformed R cred w h
  refine ⟨hm, ?_, ?_, ?_⟩
  · rw [hm]
  · rw [processCredentials_cons, hm]
  · intro cred2 w2 hlog
    by_contra hne
    rw [processEntry_malformed R cred2 w2 hne] at hlog
    exact hlog rfl

/-- C4 at the entries `bad-entry` (no colon) followed by `a:b:c` (two colons). -/
theorem C4_malformed_colon_count_witness :
    colonCount "bad-entry" ≠ 1 ∧
    processEntry stubAllSucceed "bad-entry" world0
      = ({ AccessKey := "bad-entry", Valid := false, Details := "" }, world0) ∧
    (processEntry stubAllSucceed "bad-entry" world0).2.log = world0.log ∧
    processCredentials stubAllSucceed ("bad-entry" :: ["a:b:c"]) world0
      = ({ AccessKey := "bad-entry", Valid := false, Details := "" }
          :: (processCredentials stubAllSucceed ["a:b:c"] world0).1,
         (processCredentials stubAllSucceed ["a:b:c"] world0).2) ∧
    (∀ (cred2 : String) (w2 : World Unit),
      (processEntry stubAllSucceed cred2 w2).2.log ≠ w2.log → colonCount cred2 = 1) :=
  ⟨by decide, C4_malformed_colon_count stubAllSucceed "bad-entry" ["a:b:c"] world0 (by decide)⟩

/-! ## C5: a failed detail call does not invalidate -/

/-- C5: when the session is created and the identity call succeeds with the
fields `(u, a, r)`, `validateAndFetchDetails` returns `Valid = true` for the
given access key; when the detail call fails, `Details` is exactly
`Caller Identity: u, Account: a, ARN: r`; when it succeeds, `Details` is that
summary followed by a newline, `IAM Details: ` and the rendering of the
payload. -/
theorem C5_detail_failure_keeps_valid {σ : Type} (R : Remote σ) (accessKey secretKey : String)
    (w : World σ) (sess : Session) (o1 o2 : σ) (u a r : String)
    (hsess : R.NewSession accessKey secretKey w.oracle = (some sess, o1))
    (hid : R.GetCallerIdentity sess o1 = (some ⟨u, a, r⟩, o2)) :
    (validateAndFetchDetails R accessKey secretKey w).1.Valid = true ∧
    (validateAndFetchDetails R accessKey secretKey w).1.AccessKey = accessKey ∧
    ((R.GetAccountAuthorizationDetails sess o2).1 = none →
      (validateAndFetchDetails R accessKey secretKey w).1.Details
        = "Caller Identity: " ++ u ++ ", Account: " ++ a ++ ", ARN: " ++ r) ∧
    (∀ payload, (R.GetAccountAuthorizationDetails sess o2).1 = some payload →
      (validateAndFetchDetails R accessKey secretKey w).1.Details
        = "Caller Identity: " ++ u ++ ", Account: " ++ a ++ ", ARN: " ++ r
            ++ "\nIAM Details: " ++ payload.text) := by
  unfold validateAndFetchDetails
  simp only [hsess, hid]
  cases hd : (R.GetAccountAuthorizationDetails sess o2).1 with
  | none => simp [identitySummary]
  | some payload => simp [identitySummary]

/-- C5 at the scenario of the specification: identity `(u1, 111,
arn:aws:iam::111:user/u1)`, detail call failing. -/
theorem C5_detail_failure_keeps_valid_witness :
    (validateAndFetchDetails stubDetailFails "AKIA1" "secret1" world0).1.Valid = true ∧
    (validateAndFetchDetails stubDetailFails "AKIA1" "secret1" world0).1.AccessKey = "AKIA1" ∧
    ((stubDetailFails.GetAccountAuthorizationDetails ⟨"AKIA1", "secret1"⟩ ()).1 = none →
      (validateAndFetchDetails stubDetailFails "AKIA1" "secret1" world0).1.Details
        = "Caller Identity: " ++ "u1" ++ ", Account: " ++ "111" ++ ", ARN: "
            ++ "arn:aws:iam::111:user/u1") ∧
    (∀ payload,
      (stubDetailFails.GetAccountAuthorizationDetails ⟨"AKIA1", "secret1"⟩ ()).1
        = some payload →
      (validateAndFetchDetails stubDetailFails "AKIA1" "secret1" world0).1.Details
        = "Caller Identity: " ++ "u1" ++ ", Account: " ++ "111" ++ ", ARN: "
            ++ "arn:aws:iam::111:user/u1" ++ "\nIAM Details: " ++ payload.text) :=
  C5_detail_failure_keeps_valid stubDetailFails "AKIA1" "secret1" world0 ⟨"AKIA1", "secret1"⟩
    () () "u1" "111" "arn:aws:iam::111:user/u1" rfl rfl

/-! ## C9: details only when valid -/

/-- C9: the record emitted for an entry has non-empty `Details` if and only if
`Valid` is true, for `processCredentials` (per entry) and for
`validateAndFetchDetails`; a malformed entry, a failed session creation and a
failed identity call each give `Valid = false` with empty `Details`, and after
a failed identity call the log ends with the identity call: the detail call
is not made. -/
theorem C9_details_iff_valid {σ : Type} (R : Remote σ) (cred accessKey secretKey : String)
    (w : World σ) :
    ((processEntry R cred w).1.Details ≠ "" ↔ (processEntry R cred w).1.Valid = true) ∧
    ((validateAndFetchDetails R accessKey secretKey w).1.Details ≠ ""
      ↔ (validateAndFetchDetails R accessKey secretKey w).1.Valid = true) ∧
    (colonCount cred ≠ 1 →
      (processEntry R cred w).1.Valid = false ∧ (processEntry R cred w).1.Details = "") ∧
    ((R.NewSession accessKey secretKey w.oracle).1 = none →
      (validateAndFetchDetails R accessKey secretKey w).1.Valid = false ∧
      (validateAndFetchDetails R accessKey secretKey w).1.Details = "" ∧
      (validateAndFetchDetails R accessKey secretKey w).2.log
        = w.log ++ [SdkCall.NewSession accessKey secretKey]) ∧
    (∀ sess, (R.NewSession accessKey secretKey w.oracle).1 = some sess →
      (R.GetCallerIdentity sess (R.NewSession accessKey secretKey w.oracle).2).1 = none →
      (validateAndFetchDetails R accessKey secretKey w).1.Valid = false ∧
      (validateAndFetchDetails R accessKey secretKey w).1.Details = "" ∧
      (validateAndFetchDetails R accessKey secretKey w).2.log
        = w.log ++ [SdkCall.NewSession accessKey secretKey, SdkCall.GetCallerIdentity sess]) := by
  refine ⟨?_, validateAndFetchDetails_details R accessKey secretKey w, ?_, ?_, ?_⟩
  · by_cases h : colonCount cred = 1
    · rw [processEntry_wellformed R cred w h]
      exact validateAndFetchDetails_details R _ _ w
    · rw [processEntry_malformed R cred w h]
      simp
  · intro h
    rw [processEntry_malformed R cred w h]
    exact ⟨rfl, rfl⟩
  · intro h
    unfold validateAndFetchDetails
    simp [h]
  · intro sess h1 h2
    unfold validateAndFetchDetails
    simp [h1, h2]

/-- C9 at the entry `bad-entry` and the credentials `AKIA1`/`secret1`, against
a stub whose identity call fails. -/
theorem C9_details_iff_valid_witness :
    (processEntry stubIdentityFails "bad-entry" world0).1.Valid = false ∧
    (processEntry stubIdentityFails "bad-entry" world0).1.Details = "" ∧
    (validateAndFetchDetails stubIdentityFails "AKIA1" "secret1" world0).1.Valid = false ∧
    (validateAndFetchDetails stubIdentityFails "AKIA1" "secret1" world0).1.Details = "" ∧
    (validateAndFetchDetails stubIdentityFails "AKIA1" "secret1" world0).2.log
      = world0.log ++ [SdkCall.NewSession "AKIA1" "secret1",
          SdkCall.GetCallerIdentity ⟨"AKIA1", "secret1"⟩] :=
  ⟨((C9_details_iff_valid stubIdentityFails "bad-entry" "AKIA1" "secret1" world0).2.2.1
      (by decide)).1,
   ((C9_details_iff_valid stubIdentityFails "bad-entry" "AKIA1" "secret1" world0).2.2.1
      (by decide)).2,
   (C9_details_iff_valid stubIdentityFails "bad-entry" "AKIA1" "secret1" world0).2.2.2.2
      ⟨"AKIA1", "secret1"⟩ rfl rfl⟩

/-! ## C10: the order of a worker's output -/

/-- C10: `processCredentials` pushes exactly one record per entry, in the
order of the chunk: the pushed sequence has the chunk's length, its `i`-th
record is the one the loop body computes from the `i`-th entry (in the state
left by the entries before it), and that record's `AccessKey` is the whole
entry when the entry is malformed and the text before the colon when it has
exactly one colon. -/
theorem C10_worker_output_order {σ : Type} (R : Remote σ) (creds : List String)
    (w : World σ) :
    (processCredentials R creds w).1.length = creds.length ∧
    (∀ (i : Nat) (cred : String), creds[i]? = some cred →
      (processCredentials R creds w).1[i]?
        = some (processEntry R cred (processCredentials R (creds.take i) w).2).1) ∧
    (∀ (i : Nat) (cred : String), creds[i]? = some cred →
      ∃ r, (processCredentials R creds w).1[i]? = some r ∧
        (colonCount cred ≠ 1 → r.AccessKey = cred) ∧
        (colonCount cred = 1 → r.AccessKey = beforeColon cred)) := by
  refine ⟨processCredentials_length R creds w, ?_, ?_⟩
  · intro i cred h
    exact processCredentials_getElem R creds w i cred h
  · intro i cred h
    refine ⟨_, processCredentials_getElem R creds w i cred h, ?_, ?_⟩
    · intro hne
      rw [processEntry_accessKey, if_neg hne]
    · intro hone
      rw [processEntry_accessKey, if_pos hone]

/-- C10 at the chunk `AKIA1:secret1`, `bad-entry`: the second record pushed is
the invalid record of `bad-entry`. -/
theorem C10_worker_output_order_witness :
    (processCredentials stubDetailFails ["AKIA1:secret1", "bad-entry"] world0).1.length = 2 ∧
    ∃ r, (processCredentials stubDetailFails ["AKIA1:secret1", "bad-entry"] world0).1[1]?
        = some r ∧
      (colonCount "bad-entry" ≠ 1 → r.AccessKey = "bad-entry") ∧
      (colonCount "bad-entry" = 1 → r.AccessKey = beforeColon "bad-entry") :=
  ⟨(C10_worker_output_order stubDetailFails ["AKIA1:secret1", "bad-entry"] world0).1,
   (C10_worker_output_order stubDetailFails ["AKIA1:secret1", "bad-entry"] world0).2.2 1
     "bad-entry" rfl⟩

/-! ## The writes of the report -/

/-- The writes of the aggregation loop for one record. -/
theorem aggregateStep_out (debugFlag : Bool) (acc : Report) (r : CredentialInfo) :
    (aggregateStep debugFlag acc r).out
      = acc.out ++ (if r.Valid then [validBlock r]
          else if debugFlag then [invalidLine r] else []) := by
  unfold aggregateStep
  cases r.Valid <;> cases debugFlag <;> simp

theorem foldl_aggregateStep_out (debugFlag : Bool) (results : List CredentialInfo)
    (acc : Report) :
    (results.foldl (aggregateStep debugFlag) acc).out
      = acc.out ++ (results.map (fun r => if r.Valid then [validBlock r]
          else if debugFlag then [invalidLine r] else [])).flatten := by
  induction results generalizing acc with
  | nil => simp
  | cons r rs ih =>
    rw [List.foldl_cons, ih, aggregateStep_out, List.map_cons, List.flatten_cons,
      List.append_assoc]

theorem aggregate_out (debugFlag : Bool) (results : List CredentialInfo) :
    (aggregate debugFlag results).out
      = (results.map (fun r => if r.Valid then [validBlock r]
          else if debugFlag then [invalidLine r] else [])).flatten
        ++ [validCountLine (results.countP (fun r => r.Valid))]
        ++ (if debugFlag then [invalidCountLine (results.countP (fun r => !r.Valid))]
            else []) := by
  have hv := (foldl_aggregateStep_counts debugFlag results
    { validCount := 0, invalidCount := 0, out := [] }).1
  have hi := (foldl_aggregateStep_counts debugFlag results
    { validCount := 0, invalidCount := 0, out := [] }).2
  have ho := foldl_aggregateStep_out debugFlag results
    { validCount := 0, invalidCount := 0, out := [] }
  unfold aggregate
  simp only [hv, hi, ho, Nat.zero_add, List.nil_append]
  cases debugFlag <;> simp

/-- Filtering the body of the report by a classifier that is constant on
"Valid:" blocks and on "Invalid:" lines. -/
theorem filter_body (p : String → Bool) (debugFlag : Bool) (pv pi : Bool)
    (hv : ∀ r, p (validBlock r) = pv) (hi : ∀ r, p (invalidLine r) = pi)
    (results : List CredentialInfo) :
    ((results.map (fun r => if r.Valid then [validBlock r]
        else if debugFlag then [invalidLine r] else [])).flatten).filter p
      = (results.map (fun r => if r.Valid then (if pv then [validBlock r] else [])
          else if debugFlag && pi then [invalidLine r] else [])).flatten := by
  induction results with
  | nil => rfl
  | cons r rs ih =>
    rw [List.map_cons, List.flatten_cons, List.filter_append, ih, List.map_cons,
      List.flatten_cons]
    congr 1
    cases hr : r.Valid <;> cases debugFlag <;> cases pv <;> cases pi <;>
      simp_all [List.filter]

theorem flatten_map_valid (results : List CredentialInfo) (f : CredentialInfo → String) :
    (results.map (fun r => if r.Valid then [f r] else [])).flatten
      = (results.filter (fun r => r.Valid)).map f := by
  induction results with
  | nil => rfl
  | cons r rs ih =>
    rw [List.map_cons, List.flatten_cons, ih]
    cases hr : r.Valid <;> simp [List.filter, hr]

theorem flatten_map_invalid (results : List CredentialInfo) (f : CredentialInfo → String) :
    (results.map (fun r => if r.Valid then [] else [f r])).flatten
      = (results.filter (fun r => !r.Valid)).map f := by
  induction results with
  | nil => rfl
  | cons r rs ih =>
    rw [List.map_cons, List.flatten_cons, ih]
    cases hr : r.Valid <;> simp [List.filter, hr]

theorem flatten_map_nil (results : List CredentialInfo) :
    (results.map (fun _ => ([] : List String))).flatten = [] := by
  induction results with
  | nil => rfl
  | cons r rs ih => rw [List.map_cons, List.flatten_cons, ih]; rfl

/-- The debug flag at the level of `Printf` writes, for every list of result
records: with the flag off no write is an "Invalid:" line or the "Number of
invalid credentials:" line; with the flag on there is exactly one "Invalid:"
write per invalid record (in arrival order) and exactly one "Number of
invalid credentials:" write, carrying the invalid count; in both modes there
is one "Valid:" write per valid record and exactly one "Number of valid
credentials:" write, carrying the valid count. -/
theorem writes_debug_flag_gating (debugFlag : Bool) (results : List CredentialInfo) :
    (aggregate debugFlag results).out.filter isValidBlock
      = (results.filter (fun r => r.Valid)).map validBlock ∧
    (aggregate debugFlag results).out.filter isValidCountLine
      = [validCountLine (aggregate debugFlag results).validCount] ∧
    (aggregate debugFlag results).out.filter isInvalidLine
      = (if debugFlag then (results.filter (fun r => !r.Valid)).map invalidLine else []) ∧
    (aggregate debugFlag results).out.filter isInvalidCountLine
      = (if debugFlag then [invalidCountLine (aggregate debugFlag results).invalidCount]
          else []) ∧
    (aggregate debugFlag results).validCount = (results.filter (fun r => r.Valid)).length ∧
    (aggregate debugFlag results).invalidCount
      = (results.filter (fun r => !r.Valid)).length := by
  have hvb := fun r => (classify_validBlock r)
  have hil := fun r => (classify_invalidLine r)
  have hvc := fun n => (classify_validCountLine n)
  have hic := fun n => (classify_invalidCountLine n)
  rw [aggregate_validCount, aggregate_invalidCount, aggregate_out]
  refine ⟨?_, ?_, ?_, ?_, ?_, ?_⟩
  · rw [List.filter_append, List.filter_append,
      filter_body isValidBlock debugFlag true false (fun r => (hvb r).1) (fun r => (hil r).1)]
    simp only [Bool.and_false, Bool.false_eq_true, if_false, if_true]
    rw [flatten_map_valid]
    cases debugFlag <;> simp [List.filter, (hvc _).1, (hic _).1]
  · rw [List.filter_append, List.filter_append,
      filter_body isValidCountLine debugFlag false false (fun r => (hvb r).2.2.1)
        (fun r => (hil r).2.2.1)]
    simp only [Bool.and_false, Bool.false_eq_true, if_false, ite_self]
    rw [flatten_map_nil]
    cases debugFlag <;> simp [List.filter, (hvc _).2.2.1, (hic _).2.2.1]
  · rw [List.filter_append, List.filter_append,
      filter_body isInvalidLine debugFlag false true (fun r => (hvb r).2.1)
        (fun r => (hil r).2.1)]
    cases debugFlag
    · simp only [Bool.false_and, Bool.false_eq_true, if_false, ite_self]
      rw [flatten_map_nil]
      simp [List.filter, (hvc _).2.1]
    · simp only [Bool.true_and, Bool.false_eq_true, if_false, if_true]
      rw [flatten_map_invalid]
      simp [List.filter, (hvc _).2.1, (hic _).2.1]
  · rw [List.filter_append, List.filter_append,
      filter_body isInvalidCountLine debugFlag false false (fun r => (hvb r).2.2.2)
        (fun r => (hil r).2.2.2)]
    simp only [Bool.and_false, Bool.false_eq_true, if_false, ite_self]
    rw [flatten_map_nil]
    cases debugFlag <;> simp [List.filter, (hvc _).2.2.2, (hic _).2.2.2]
  · exact List.countP_eq_length_filter _ _
  · exact List.countP_eq_length_filter _ _

/-! ## The lines of the rendered text -/

theorem splitOnChar_append_sep (sep : Char) (a b : List Char) :
    splitOnChar sep (a ++ sep :: b) = splitOnChar sep a ++ splitOnChar sep b := by
  induction a with
  | nil => simp [splitOnChar]
  | cons ch rest ih =>
    rw [List.cons_append, splitOnChar, splitOnChar]
    by_cases h : ch = sep
    · rw [if_pos h, if_pos h, ih]; rfl
    · rw [if_neg h, if_neg h, ih]
      cases hs : splitOnChar sep rest with
      | nil => exact absurd hs (splitOnChar_ne_nil sep rest)
      | cons p ps => rfl

theorem splitOnChar_append_of_not_mem (sep : Char) (pre x : List Char) (h : sep ∉ pre) :
    splitOnChar sep (pre ++ x)
      = (pre ++ (splitOnChar sep x).headD []) :: (splitOnChar sep x).tail := by
  induction pre with
  | nil =>
    cases hs : splitOnChar sep x with
    | nil => exact absurd hs (splitOnChar_ne_nil sep x)
    | cons p ps => simp [hs]
  | cons ch rest ih =>
    have hne : ch ≠ sep := fun he => h (by rw [he]; exact List.mem_cons_self _ _)
    have hrest : sep ∉ rest := fun hm => h (List.mem_cons_of_mem _ hm)
    rw [List.cons_append, splitOnChar, if_neg hne, ih hrest]
    rfl

theorem splitOnChar_of_not_mem (sep : Char) (l : List Char) (h : sep ∉ l) :
    splitOnChar sep l = [l] :=
  splitOnChar_of_count_zero sep l (List.count_eq_zero.mpr h)

theorem textLines_append_nl (a b : String) :
    textLines (a ++ ("\n" ++ b)) = textLines a ++ textLines b := by
  unfold textLines
  rw [String.data_append, String.data_append, ← List.map_append]
  exact congrArg _ (splitOnChar_append_sep (Char.ofNat 10) a.data b.data)

theorem textLines_ne_nil (s : String) : textLines s ≠ [] := by
  unfold textLines
  intro h
  exact splitOnChar_ne_nil _ _ (List.map_eq_nil_iff.mp h)

theorem textLines_eq_cons (s : String) : textLines s = firstLine s :: (textLines s).tail := by
  unfold firstLine
  cases h : textLines s with
  | nil => exact absurd h (textLines_ne_nil s)
  | cons p ps => rfl

theorem textLines_append_of_plain (p x : String) (h : Char.ofNat 10 ∉ p.data) :
    textLines (p ++ x) = (p ++ firstLine x) :: (textLines x).tail := by
  unfold firstLine textLines
  rw [String.data_append, splitOnChar_append_of_not_mem _ _ _ h]
  cases hs : splitOnChar (Char.ofNat 10) x.data with
  | nil => exact absurd hs (splitOnChar_ne_nil _ _)
  | cons q qs =>
    simp only [List.map_cons, List.headD_cons, List.tail_cons]
    rfl

theorem textLines_of_plain (s : String) (h : Char.ofNat 10 ∉ s.data) : textLines s = [s] := by
  unfold textLines
  rw [splitOnChar_of_not_mem _ _ h]
  rfl

theorem digitChar_ne_newline : ∀ d, d < 10 → Nat.digitChar d ≠ Char.ofNat 10 := by
  decide

theorem toDigitsCore_no_newline (fuel : Nat) :
    ∀ (n : Nat) (ds : List Char), Char.ofNat 10 ∉ ds →
      Char.ofNat 10 ∉ Nat.toDigitsCore 10 fuel n ds := by
  induction fuel with
  | zero => intro n ds h; simpa [Nat.toDigitsCore] using h
  | succ fuel ih =>
    intro n ds h
    rw [Nat.toDigitsCore]
    have hcons : Char.ofNat 10 ∉ Nat.digitChar (n % 10) :: ds := by
      intro hm
      rcases List.mem_cons.mp hm with he | hm2
      · exact digitChar_ne_newline _ (Nat.mod_lt n (by decide)) he.symm
      · exact h hm2
    split
    · exact hcons
    · exact ih _ _ hcons

theorem toString_no_newline (n : Nat) : Char.ofNat 10 ∉ (toString n).data := by
  show Char.ofNat 10 ∉ (Nat.repr n).data
  unfold Nat.repr Nat.toDigits
  exact toDigitsCore_no_newline _ _ _ (List.not_mem_nil _)

theorem render_append (a b : List String) : render (a ++ b) = render a ++ render b := by
  induction a with
  | nil => show render b = "" ++ render b; exact (String.empty_append _).symm
  | cons w ws ih =>
    show w ++ render (ws ++ b) = (w ++ render ws) ++ render b
    rw [ih, String.append_assoc]

theorem filter_plain (q : String → Bool) (hlab : ∀ l, q l = true → isLabelLine l = true)
    (ls : List String) (h : ls.all (fun l => !isLabelLine l) = true) : ls.filter q = [] := by
  rw [List.filter_eq_nil_iff]
  intro l hl hq
  have h1 := List.all_eq_true.mp h l hl
  rw [hlab l hq] at h1
  exact absurd h1 (by decide)

theorem textLines_validBlock (r : CredentialInfo) (T : String) :
    textLines (validBlock r ++ T)
      = (validLabel ++ (" " ++ firstLine r.AccessKey))
        :: ((textLines r.AccessKey).tail ++ ("Details:" :: (textLines r.Details
            ++ ("" :: textLines T)))) := by
  have hshape : validBlock r ++ T
      = ((validLabel ++ " ") ++ r.AccessKey) ++ ("\n" ++ ("Details:" ++ ("\n"
          ++ (r.Details ++ ("\n" ++ ("" ++ ("\n" ++ T))))))) := by
    unfold validBlock validLabel
    have e1 : ("\nDetails:\n" : String) = "\n" ++ ("Details:" ++ "\n") := by decide
    have e2 : ("\n\n" : String) = "\n" ++ ("" ++ "\n") := by decide
    rw [e1, e2]
    simp only [String.append_assoc]
  rw [hshape, textLines_append_nl, textLines_append_nl, textLines_append_nl,
    textLines_append_nl, textLines_append_of_plain _ _ (by decide),
    textLines_of_plain "Details:" (by decide), textLines_of_plain "" (by decide)]
  simp [String.append_assoc]

theorem textLines_invalidLine (r : CredentialInfo) (T : String) :
    textLines (invalidLine r ++ T)
      = (invalidLabel ++ (" " ++ firstLine r.AccessKey))
        :: ((textLines r.AccessKey).tail ++ textLines T) := by
  have hshape : invalidLine r ++ T = ((invalidLabel ++ " ") ++ r.AccessKey) ++ ("\n" ++ T) := by
    unfold invalidLine invalidLabel
    simp only [String.append_assoc]
  rw [hshape, textLines_append_nl, textLines_append_of_plain _ _ (by decide)]
  simp [String.append_assoc]

theorem textLines_countLine (label : String) (hl : Char.ofNat 10 ∉ label.data) (n : Nat)
    (T : String) :
    textLines (label ++ " " ++ toString n ++ "\n" ++ T)
      = (label ++ (" " ++ toString n)) :: textLines T := by
  have hshape : label ++ " " ++ toString n ++ "\n" ++ T
      = (label ++ (" " ++ toString n)) ++ ("\n" ++ T) := by
    simp only [String.append_assoc]
  have hplain : Char.ofNat 10 ∉ (label ++ (" " ++ toString n)).data := by
    rw [String.data_append, String.data_append]
    intro hm
    rcases List.mem_append.mp hm with h | h
    · exact hl h
    · rcases List.mem_append.mp h with h2 | h2
      · exact absurd h2 (by decide)
      · exact toString_no_newline n h2
  rw [hshape, textLines_append_nl, textLines_of_plain _ hplain]
  rfl

/-- The lines of the body of the report that a classifier selects: the first
line of each write, when the classifier accepts its label. -/
theorem filter_lines_body (q : String → Bool) (pv pi : Bool)
    (hv : ∀ x, q (validLabel ++ x) = pv) (hi : ∀ x, q (invalidLabel ++ x) = pi)
    (hlab : ∀ l, q l = true → isLabelLine l = true) (debugFlag : Bool)
    (results : List CredentialInfo)
    (hplain : ∀ r ∈ results, printsPlain debugFlag r = true) (T : String) :
    (textLines (render (results.map (fun r => if r.Valid then [validBlock r]
        else if debugFlag then [invalidLine r] else [])).flatten ++ T)).filter q
      = (results.map (fun r =>
          if r.Valid then (if pv then [validLabel ++ (" " ++ firstLine r.AccessKey)] else [])
          else if debugFlag && pi then [invalidLabel ++ (" " ++ firstLine r.AccessKey)]
          else [])).flatten
        ++ (textLines T).filter q := by
  induction results with
  | nil =>
    show (textLines ("" ++ T)).filter q = [] ++ (textLines T).filter q
    rw [String.empty_append, List.nil_append]
  | cons r rs ih =>
    have hr := hplain r (List.mem_cons_self _ _)
    have ih2 := ih (fun x hx => hplain x (List.mem_cons_of_mem _ hx))
    have hq0 : q "" = false := by
      cases h : q "" with
      | false => rfl
      | true => exact absurd (hlab "" h) (by decide)
    have hqd : q "Details:" = false := by
      cases h : q "Details:" with
      | false => rfl
      | true => exact absurd (hlab "Details:" h) (by decide)
    rw [List.map_cons, List.flatten_cons, List.map_cons, List.flatten_cons, render_append,
      String.append_assoc]
    unfold printsPlain at hr
    cases hvalid : r.Valid with
    | true =>
      rw [hvalid] at hr
      simp only [if_true, Bool.and_eq_true] at hr
      simp only [if_true]
      show (textLines (validBlock r ++ "" ++ _)).filter q = _
      rw [String.append_assoc, String.empty_append, textLines_validBlock, List.filter_cons, hv,
        List.filter_append, filter_plain q hlab _ hr.1, List.filter_cons, hqd,
        List.filter_append, filter_plain q hlab _ hr.2, List.filter_cons, hq0, ih2]
      cases pv <;> simp
    | false =>
      rw [hvalid] at hr
      simp only [Bool.false_eq_true, if_false]
      cases hd : debugFlag with
      | false =>
        rw [hd] at ih2
        simp only [Bool.false_eq_true, if_false, Bool.false_and] at ih2 ⊢
        show (textLines ("" ++ _)).filter q = _
        rw [String.empty_append, ih2]
        simp
      | true =>
        rw [hd] at ih2 hr
        simp only [Bool.false_eq_true, if_false, Bool.not_true, Bool.false_or] at hr
        simp only [if_true, Bool.true_and] at ih2 ⊢
        show (textLines (invalidLine r ++ "" ++ _)).filter q = _
        rw [String.append_assoc, String.empty_append, textLines_invalidLine, List.filter_cons,
          hi, List.filter_append, filter_plain q hlab _ hr, ih2]
        cases pi <;> simp

/-- The lines of the whole report that a classifier selects. -/
theorem filter_lines_report (q : String → Bool) (pv pi pvc pic : Bool)
    (hv : ∀ x, q (validLabel ++ x) = pv) (hi : ∀ x, q (invalidLabel ++ x) = pi)
    (hvc : ∀ x, q (validCountLabel ++ x) = pvc) (hic : ∀ x, q (invalidCountLabel ++ x) = pic)
    (hlab : ∀ l, q l = true → isLabelLine l = true) (debugFlag : Bool)
    (results : List CredentialInfo)
    (hplain : ∀ r ∈ results, printsPlain debugFlag r = true) :
    (textLines (render (aggregate debugFlag results).out)).filter q
      = (results.map (fun r =>
          if r.Valid then (if pv then [validLabel ++ (" " ++ firstLine r.AccessKey)] else [])
          else if debugFlag && pi then [invalidLabel ++ (" " ++ firstLine r.AccessKey)]
          else [])).flatten
        ++ ((if pvc then [validCountLabel
              ++ (" " ++ toString (results.countP (fun r => r.Valid)))] else [])
        ++ (if debugFlag && pic then [invalidCountLabel
              ++ (" " ++ toString (results.countP (fun r => !r.Valid)))] else [])) := by
  have hq0 : q "" = false := by
    cases h : q "" with
    | false => rfl
    | true => exact absurd (hlab "" h) (by decide)
  have hempty : (textLines "").filter q = [] := by
    rw [textLines_of_plain "" (by decide), List.filter_cons, hq0]
    rfl
  have hvcl : ∀ (n : Nat) (T : String), textLines (validCountLine n ++ T)
      = (validCountLabel ++ (" " ++ toString n)) :: textLines T :=
    fun n T => textLines_countLine validCountLabel (by decide) n T
  have hicl : ∀ (n : Nat) (T : String), textLines (invalidCountLine n ++ T)
      = (invalidCountLabel ++ (" " ++ toString n)) :: textLines T :=
    fun n T => textLines_countLine invalidCountLabel (by decide) n T
  rw [aggregate_out, render_append, render_append, String.append_assoc,
    filter_lines_body q pv pi hv hi hlab debugFlag results hplain]
  congr 1
  show (textLines (validCountLine _ ++ "" ++ _)).filter q = _
  rw [String.append_assoc, String.empty_append, hvcl, List.filter_cons, hvc]
  cases debugFlag with
  | false =>
    simp only [Bool.false_eq_true, if_false, Bool.false_and]
    show (if pvc = true then _ :: (textLines "").filter q else (textLines "").filter q) = _
    rw [hempty]
    cases pvc <;> rfl
  | true =>
    simp only [if_true, Bool.true_and]
    show (if pvc = true then _ :: (textLines (invalidCountLine _ ++ "")).filter q
      else (textLines (invalidCountLine _ ++ "")).filter q) = _
    rw [hicl, List.filter_cons, hic, hempty]
    cases pvc <;> cases pic <;> rfl

theorem isLabelLine_of_isValidBlock (l : String) (h : isValidBlock l = true) :
    isLabelLine l = true := by
  unfold isLabelLine; rw [h]; rfl

theorem isLabelLine_of_isInvalidLine (l : String) (h : isInvalidLine l = true) :
    isLabelLine l = true := by
  unfold isLabelLine; rw [h]; simp

theorem isLabelLine_of_isValidCountLine (l : String) (h : isValidCountLine l = true) :
    isLabelLine l = true := by
  unfold isLabelLine; rw [h]; simp

theorem isLabelLine_of_isInvalidCountLine (l : String) (h : isInvalidCountLine l = true) :
    isLabelLine l = true := by
  unfold isLabelLine; rw [h]; simp

/-! ## C7: the debug flag -/

/-- C7 as stated fails: the malformed entry `entryWithLabel` carries a line
break followed by the "Invalid:" label; it yields one invalid record, whose
access key line 161 prints as it is, so with the debug flag on the rendered
text has two "Invalid:" lines for one invalid record. -/
theorem C7_counterexample :
    (processCredentials stubStaticCreds [entryWithLabel] world0).1
      = [{ AccessKey := entryWithLabel, Valid := false, Details := "" }] ∧
    ([({ AccessKey := entryWithLabel, Valid := false, Details := "" } : CredentialInfo)].filter
      (fun r => !r.Valid)).length = 1 ∧
    ((textLines (render (aggregate true
        [{ AccessKey := entryWithLabel, Valid := false, Details := "" }]).out)).filter
      isInvalidLine).length = 2 := by
  refine ⟨?_, by decide, by decide⟩
  rw [processCredentials_cons, processEntry_malformed _ _ _ (by decide)]
  rfl

/-- C7, amended: for every list of result records in which no printed access
key or details text itself starts a line with one of the four coloured labels
(`printsPlain`), the lines of the text rendered by the aggregation loop and
summary contain, when the debug flag is off, no "Invalid:" line and no
"Number of invalid credentials:" line even if invalid records exist; when the
debug flag is on, exactly one "Invalid:" line per invalid record and exactly
one "Number of invalid credentials:" line carrying the invalid count.  In
both modes there is one "Valid:" line per valid record and exactly one
"Number of valid credentials:" line carrying the valid count. -/
theorem C7_debug_flag_gating (debugFlag : Bool) (results : List CredentialInfo)
    (hplain : ∀ r ∈ results, printsPlain debugFlag r = true) :
    (textLines (render (aggregate debugFlag results).out)).filter isValidBlock
      = (results.filter (fun r => r.Valid)).map
          (fun r => validLabel ++ (" " ++ firstLine r.AccessKey)) ∧
    (textLines (render (aggregate debugFlag results).out)).filter isValidCountLine
      = [validCountLabel ++ (" " ++ toString (aggregate debugFlag results).validCount)] ∧
    (textLines (render (aggregate debugFlag results).out)).filter isInvalidLine
      = (if debugFlag then (results.filter (fun r => !r.Valid)).map
          (fun r => invalidLabel ++ (" " ++ firstLine r.AccessKey)) else []) ∧
    (textLines (render (aggregate debugFlag results).out)).filter isInvalidCountLine
      = (if debugFlag
          then [invalidCountLabel ++ (" " ++ toString (aggregate debugFlag results).invalidCount)]
          else []) ∧
    (aggregate debugFlag results).validCount = (results.filter (fun r => r.Valid)).length ∧
    (aggregate debugFlag results).invalidCount
      = (results.filter (fun r => !r.Valid)).length := by
  rw [aggregate_validCount, aggregate_invalidCount]
  refine ⟨?_, ?_, ?_, ?_, List.countP_eq_length_filter _ _, List.countP_eq_length_filter _ _⟩
  · rw [filter_lines_report isValidBlock true false false false
      (fun x => (classify_validLabel x).1) (fun x => (classify_invalidLabel x).1)
      (fun x => (classify_validCountLabel x).1) (fun x => (classify_invalidCountLabel x).1)
      isLabelLine_of_isValidBlock debugFlag results hplain]
    simp only [Bool.and_false, Bool.false_eq_true, if_false, if_true, List.append_nil]
    exact flatten_map_valid results _
  · rw [filter_lines_report isValidCountLine false false true false
      (fun x => (classify_validLabel x).2.2.1) (fun x => (classify_invalidLabel x).2.2.1)
      (fun x => (classify_validCountLabel x).2.2.1)
      (fun x => (classify_invalidCountLabel x).2.2.1)
      isLabelLine_of_isValidCountLine debugFlag results hplain]
    simp only [Bool.and_false, Bool.false_eq_true, if_false, if_true, ite_self,
      List.append_nil]
    rw [flatten_map_nil, List.nil_append]
  · rw [filter_lines_report isInvalidLine false true false false
      (fun x => (classify_validLabel x).2.1) (fun x => (classify_invalidLabel x).2.1)
      (fun x => (classify_validCountLabel x).2.1) (fun x => (classify_invalidCountLabel x).2.1)
      isLabelLine_of_isInvalidLine debugFlag results hplain]
    cases debugFlag
    · simp only [Bool.false_and, Bool.and_false, Bool.false_eq_true, if_false, ite_self,
        List.append_nil]
      exact flatten_map_nil results
    · simp only [Bool.true_and, Bool.and_false, Bool.false_eq_true, if_false, if_true,
        List.append_nil]
      exact flatten_map_invalid results _
  · rw [filter_lines_report isInvalidCountLine false false false true
      (fun x => (classify_validLabel x).2.2.2) (fun x => (classify_invalidLabel x).2.2.2)
      (fun x => (classify_validCountLabel x).2.2.2)
      (fun x => (classify_invalidCountLabel x).2.2.2)
      isLabelLine_of_isInvalidCountLine debugFlag results hplain]
    simp only [Bool.and_false, Bool.and_true, Bool.false_eq_true, if_false, ite_self]
    rw [flatten_map_nil]
    cases debugFlag <;> rfl

/-- C7, amended, at one valid and one invalid plain record with the debug
flag on. -/
theorem C7_debug_flag_gating_witness :
    (∀ r ∈ plainResults, printsPlain true r = true) ∧
    (textLines (render (aggregate true plainResults).out)).filter isInvalidLine
      = [invalidLabel ++ (" " ++ firstLine "bad-entry")] ∧
    (textLines (render (aggregate true plainResults).out)).filter isInvalidCountLine
      = [invalidCountLabel ++ (" " ++ toString (aggregate true plainResults).invalidCount)] :=
  ⟨by decide,
   (C7_debug_flag_gating true plainResults (by decide)).2.2.1,
   (C7_debug_flag_gating true plainResults (by decide)).2.2.2.1⟩

end AwsKv
